import Mathlib

/-!
cuPSS evolver: a shallow embedding of `src/evolver.cpp`.

The development follows `evolver.cpp` function by function: the constructor,
`setOutputField`, `addField`, `createField`, `createTerm`, `copyAllDataToHost`,
`writeOut` and `advanceTime`.  The functions that only forward to the parser
(`createFromFile`, `addParameter`, `addEquation`), `prepareProblem`, `test` and
`printInformation` take no part in the properties below and are left out.

Modelling conventions.

* `int` is a 32-bit two's-complement integer.  Values are kept in `Int`; every
  `+`, `*` and `+=` the source performs on `int`s is followed by `wrapInt32`.
  `evolver.h` is not among the sources; the members `sx`, `sy`,
  `writeEveryNSteps` and `currentTimeStep` are `int`, the type of the
  constructor parameters they are initialised from (and of the `%i` kept in
  the commented-out `sprintf` of `writeOut`).
* `float` is an IEEE-754 binary32 bit pattern.  Only the comparison `!=` is
  interpreted; `+`, `std::sqrt` and the `%f` conversion of `fprintf` are
  parameters (`Runtime`).
* A `field *` stored in `evolver::fields` is represented by its position in
  that vector: the evolver is the only owner of the fields it creates, so two
  positions are two objects.  `term::product` therefore holds positions.
* Everything the program prints or writes is recorded as a list of `Event`s.
  Whether `fopen` returns a `FILE *` or `NULL` is a parameter
  (`Runtime.fopen`).  Four events are bookkeeping only:
  `Event.enter_writeOut` marks an entry into `evolver::writeOut` and records
  the step counter it sees; `Event.updateTerms` and `Event.setRHS` mark the
  two `field` method calls; `Event.signed_overflow` marks the overflow of
  `currentTimeStep += 1`.
* Undefined behaviour that ends the run (a division by zero, the division
  `INT_MIN % -1`, an index outside a vector or a buffer, `fprintf` on a
  `NULL` file) is the outcome `Outcome.fault`.  A signed overflow is
  undefined behaviour too; there the model keeps the value a two's-complement
  machine stores.
* Names are free of NUL characters, so `c_str()` is the identity on them.
* `std::vector` sizes are far below `2^31`, so the loop counters
  `int i` running over a vector are plain list positions.
-/

namespace CuPSS

/-! ## Machine numbers -/

/-- Value of an `int` after an arithmetic result `x` is stored (two's complement, 32 bits). -/
def wrapInt32 (x : Int) : Int := (x + 2147483648) % 4294967296 - 2147483648

/-- Conversion of an `int` to `unsigned int`. -/
def toUInt32 (x : Int) : Nat := (x % 4294967296).toNat

/-- Conversion of an `int` to `size_t` (64 bits). -/
def toSizeT (x : Int) : Nat := (x % 18446744073709551616).toNat

/-- The sequence of values taken by `i` in `for (int i = 0; i < n; i++)`. -/
def intRange (n : Int) : List Int := (List.range n.toNat).map Int.ofNat

/-- An IEEE-754 binary32 value, given by its bit pattern (read modulo `2^32`). -/
structure float where
  bits : Nat
deriving DecidableEq, Repr

namespace float

/-- Biased exponent, bits 23..30. -/
def exponent (a : float) : Nat := (a.bits / 8388608) % 256

/-- Fraction, bits 0..22. -/
def mantissa (a : float) : Nat := a.bits % 8388608

/-- Not-a-number: exponent all ones, fraction non-zero. -/
def isNaN (a : float) : Bool := a.exponent == 255 && a.mantissa != 0

/-- Plus or minus zero. -/
def isZero (a : float) : Bool := a.bits % 2147483648 == 0

/-- The C++ comparison `a == b` on `float`. -/
def eq (a b : float) : Bool :=
  !a.isNaN && !b.isNaN && (a.bits % 4294967296 == b.bits % 4294967296 || (a.isZero && b.isZero))

/-- The C++ comparison `a != b` on `float`. -/
def ne (a b : float) : Bool := !(eq a b)

end float

/-- CUDA `float2`. -/
structure float2 where
  x : float
  y : float
deriving DecidableEq, Repr

/-- CUDA `dim3`: three `unsigned int`s, each defaulting to 1 in its constructor. -/
structure dim3 where
  x : Nat
  y : Nat
  z : Nat
deriving DecidableEq, Repr

/-- The conversion `dim3(vx)` used by `blocks = 1` and `threads_per_block = sx`. -/
def dim3.of1 (vx : Int) : dim3 := ⟨toUInt32 vx, 1, 1⟩

/-- The constructor call `dim3(vx, vy)`. -/
def dim3.of2 (vx vy : Int) : dim3 := ⟨toUInt32 vx, toUInt32 vy, 1⟩

/-! ## Data model -/

/-- A spectral prefactor `pres` (members as read by `printInformation`). -/
structure pres where
  preFactor : float
  iqx : Int
  iqy : Int
  q2n : Int
  invq : Int
deriving DecidableEq, Repr

/-- The members of `term` that `evolver.cpp` reads or writes. -/
structure term where
  sx : Int
  sy : Int
  dx : float
  dy : float
  isCUDA : Bool
  product : List Nat
  prefactors_h : List pres
  blocks : dim3
  threads_per_block : dim3
deriving DecidableEq, Repr

/-- Modelled from the spec: the constructor `term::term(sx, sy, dx, dy)` (term.cpp and term.h are
not among the sources).  A new term has no operand and no prefactor yet (its two `std::vector`
members start empty); `createTerm` overwrites `isCUDA`, `blocks` and `threads_per_block`. -/
def term.ctor (sx sy : Int) (dx dy : float) : term :=
  { sx := sx, sy := sy, dx := dx, dy := dy, isCUDA := false, product := [], prefactors_h := [],
    blocks := ⟨1, 1, 1⟩, threads_per_block := ⟨1, 1, 1⟩ }

/-- The members of `field` (field.h) that `evolver.cpp` reads or writes. -/
structure field where
  sx : Int
  sy : Int
  dx : float
  dy : float
  name : String
  dynamic : Bool
  isCUDA : Bool
  outputToFile : Bool
  real_array : List float2
  comp_array : List float2
  real_array_d : List float2
  comp_array_d : List float2
  terms : List term
  threads_per_block : dim3
  blocks : dim3
deriving DecidableEq, Repr

/-- The four grid buffers of a field. -/
structure Buffers where
  real_array : List float2
  comp_array : List float2
  real_array_d : List float2
  comp_array_d : List float2
deriving DecidableEq, Repr

/-- Store new buffer contents in a field. -/
def field.withBuffers (f : field) (b : Buffers) : field :=
  { f with real_array := b.real_array, comp_array := b.comp_array,
           real_array_d := b.real_array_d, comp_array_d := b.comp_array_d }

/-- The code `evolver.cpp` calls that is not among the sources, taken as parameters: the build
flag, the `float` operations of the C++ library, and the constructor and the two stepping methods
of `field` (field.cpp). -/
structure Runtime where
  /-- whether the build defines the preprocessor symbol `WITHCUDA` -/
  WITHCUDA : Bool
  /-- `std::sqrt` on `float` -/
  sqrt : float → float
  /-- `+` on `float` -/
  add : float → float → float
  /-- the `%f` conversion of `fprintf` -/
  fmt_f : float → String
  /-- whether `fopen(fileName, mode)` returns a `FILE *` (`true`) or `NULL` (`false`) -/
  fopen : String → String → Bool
  /-- the constructor `field::field(int, int, float, float)` -/
  field_ctor : Int → Int → float → float → field
  /-- Modelled from the spec: `fields[k]->updateTerms()` recomputes the buffers of field `k`,
  reading the other fields (each field exclusively owns its buffers, no field mutates another
  field's buffers); the result is the new buffers of field `k` -/
  updateTerms : List field → Nat → Buffers
  /-- Modelled from the spec: `fields[k]->setRHS(dt)` overwrites the buffers of field `k`; the
  result is the new buffers of field `k` -/
  setRHS : float → List field → Nat → Buffers

/-- The members of `evolver` used by `evolver.cpp` (the parser apart). -/
structure evolver where
  with_cuda : Bool
  sx : Int
  sy : Int
  dx : float
  dy : float
  dt : float
  dtsqrt : float
  currentTime : float
  currentTimeStep : Int
  writeEveryNSteps : Int
  threads_per_block : dim3
  blocks : dim3
  fields : List field
  fieldsMap : List (String × Nat)
  fieldsReal : List (String × Nat)
  fieldsFourier : List (String × Nat)
deriving DecidableEq, Repr

/-- What the program prints, writes or calls. -/
inductive Event where
  | cout (text : String)
  | enter_writeOut (currentTimeStep : Int)
  | updateTerms (k : Nat)
  | setRHS (k : Nat) (dt : float)
  | fopen (fileName : String) (mode : String)
  | fprintf (text : String)
  | fclose
  | signed_overflow
deriving DecidableEq, Repr

/-- Undefined behaviour reachable in the source. -/
inductive Fault where
  | divideByZero
  | divideOverflow
  | vectorIndex
  | bufferIndex
  | nullFile
deriving DecidableEq, Repr

/-- How a call ends: it returns, the process exits, or behaviour is undefined. -/
inductive Outcome (α : Type) where
  | ret (value : α) (s : evolver) (out : List Event)
  | exit (status : Int) (out : List Event)
  | fault (what : Fault)
deriving DecidableEq, Repr

/-! ## `evolver::evolver` -/

/-- The constructor `evolver::evolver(_with_cuda, _sx, _sy, _dx, _dy, _dt, _ses)`; returns the new
object and what it printed. -/
def evolver.ctor (rt : Runtime) (_with_cuda : Bool) (_sx _sy : Int) (_dx _dy _dt : float)
    (_ses : Int) : evolver × List Event :=
  let sx := _sx
  let sy := _sy
  let with_cuda := if rt.WITHCUDA then _with_cuda else false
  let out := if rt.WITHCUDA then []
    else [Event.cout "Compiled without CUDA, ignoring GPU settings and running on CPU\n"]
  let cfg : dim3 × dim3 :=
    if sy = 1 then
      (dim3.of1 1, dim3.of1 sx)
    else
      let bx := Int.tdiv (wrapInt32 (sx + 31)) 32
      let by_ := Int.tdiv (wrapInt32 (sy + 31)) 32
      (dim3.of2 bx by_, dim3.of2 32 32)
  ({ with_cuda := with_cuda, sx := sx, sy := sy, dx := _dx, dy := _dy, dt := _dt,
     dtsqrt := rt.sqrt _dt, currentTime := ⟨0⟩, currentTimeStep := 0, writeEveryNSteps := _ses,
     threads_per_block := cfg.2, blocks := cfg.1, fields := [],
     fieldsMap := [], fieldsReal := [], fieldsFourier := [] }, out)

/-! ## `evolver::setOutputField`, `evolver::addField`, `evolver::createField` -/

/-- The loop of `setOutputField` over `fields`: the first field named `_name` gets the flag. -/
def setOutputFlag (_name : String) (_output : Int) : List field → Option (List field)
  | [] => none
  | f :: fs =>
    if f.name = _name then
      some ({ f with outputToFile := if _output ≠ 0 then true else false } :: fs)
    else (setOutputFlag _name _output fs).map (fun r => f :: r)

/-- The method `evolver::setOutputField(_name, _output)`. -/
def evolver.setOutputField (s : evolver) (_name : String) (_output : Int) : evolver × List Event :=
  match setOutputFlag _name _output s.fields with
  | some fs => ({ s with fields := fs }, [])
  | none => (s, [Event.cout ("setOutputField EROR: " ++ _name ++ " not found.\n")])

/-- The method `evolver::addField(newField)`. -/
def evolver.addField (s : evolver) (newField : field) : evolver :=
  { s with fields := s.fields ++ [newField] }

/-- The assignment `m[key] = value` on a `std::map`. -/
def mapAssign (m : List (String × Nat)) (key : String) (value : Nat) : List (String × Nat) :=
  (key, value) :: m.filter (fun p => p.1 != key)

/-- The first loop of `createField`: is some `fields[i]->name == name`? -/
def nameExists (name : String) : List field → Bool
  | [] => false
  | f :: fs => if f.name = name then true else nameExists name fs

/-- The method `evolver::createField(name, dynamic)`: return value, new state, output. -/
def evolver.createField (rt : Runtime) (s : evolver) (name : String) (dynamic : Bool) :
    Int × evolver × List Event :=
  if nameExists name s.fields then
    (1, s, [Event.cout "Trying to create field with name that already exists\n"])
  else
    let newField : field :=
      { rt.field_ctor s.sx s.sy s.dx s.dy with
        name := name, isCUDA := s.with_cuda, dynamic := dynamic,
        blocks := s.blocks, threads_per_block := s.threads_per_block }
    let fields := s.fields ++ [newField]
    (0, { s with fields := fields,
                 fieldsMap := mapAssign s.fieldsMap name (fields.length - 1),
                 fieldsReal := mapAssign s.fieldsReal name (fields.length - 1),
                 fieldsFourier := mapAssign s.fieldsFourier name (fields.length - 1) }, [])

/-! ## `evolver::createTerm` -/

/-- The first loop of `createTerm`, started at position `i`: the position of the first field named
`_field`, or `-1`. -/
def findFieldIndex (_field : String) : Nat → List field → Int
  | _, [] => -1
  | i, f :: fs => if f.name = _field then (i : Int) else findFieldIndex _field (i + 1) fs

/-- The inner loop of `createTerm` over `j`, started at position `j`: every field named
`fieldForProduct` is pushed. -/
def matchingFields (fieldForProduct : String) : Nat → List field → List Nat
  | _, [] => []
  | j, f :: fs =>
    if fieldForProduct = f.name then j :: matchingFields fieldForProduct (j + 1) fs
    else matchingFields fieldForProduct (j + 1) fs

/-- The outer loop of `createTerm` over `_product`. -/
def buildProduct (fields : List field) : List String → List Nat
  | [] => []
  | fieldForProduct :: rest => matchingFields fieldForProduct 0 fields ++ buildProduct fields rest

/-- The loop of `createTerm` that copies the prefactors one by one. -/
def pushPrefactors (acc : List pres) : List pres → List pres
  | [] => acc
  | p :: ps => pushPrefactors (acc ++ [p]) ps

/-- The statement `fields[field_index]->terms.push_back(newTerm)`. -/
def pushTerm (fields : List field) (field_index : Nat) (newTerm : term) : List field :=
  fields.modify (fun f => { f with terms := f.terms ++ [newTerm] }) field_index

/-- The method `evolver::createTerm(_field, _prefactors, _product)`. -/
def evolver.createTerm (s : evolver) (_field : String) (_prefactors : List pres)
    (_product : List String) : Int × evolver × List Event :=
  let field_index := findFieldIndex _field 0 s.fields
  if field_index = -1 then
    (1, s, [Event.cout ("Field " ++ _field ++ " not found trying to create term\n")])
  else
    let t0 := term.ctor s.sx s.sy s.dx s.dy
    let t1 := { t0 with isCUDA := s.with_cuda }
    let t2 := { t1 with product := t1.product ++ buildProduct s.fields _product }
    let t3 := { t2 with prefactors_h := pushPrefactors t2.prefactors_h _prefactors }
    let newTerm := { t3 with blocks := s.blocks, threads_per_block := s.threads_per_block }
    (0, { s with fields := pushTerm s.fields field_index.toNat newTerm }, [])

/-! ## `evolver::copyAllDataToHost`, `evolver::writeOut` -/

/-- Size in bytes of a `float2`. -/
def sizeof_float2 : Nat := 8

/-- The byte count `sx*sy*sizeof(float2)`: an `int` product converted to `size_t`. -/
def byteCount (sx sy : Int) : Nat :=
  (toSizeT (wrapInt32 (sx * sy)) * sizeof_float2) % 18446744073709551616

/-- The CUDA runtime call `cudaMemcpy(dst, src, count, kind)` on `float2` buffers: the first
`count / sizeof(float2)` elements of `dst` are replaced by those of `src`. -/
def cudaMemcpy (dst src : List float2) (count : Nat) : List float2 :=
  src.take (count / sizeof_float2) ++ dst.drop (count / sizeof_float2)

/-- The method `evolver::copyAllDataToHost()`. -/
def evolver.copyAllDataToHost (s : evolver) : evolver :=
  { s with fields := s.fields.map (fun f =>
      { f with real_array := cudaMemcpy f.real_array f.real_array_d (byteCount s.sx s.sy) }) }

/-- The read `real_array[index]` with an `int` index. -/
def readAt (real_array : List float2) (index : Int) : Option float2 :=
  if index < 0 then none else real_array[index.toNat]?

/-- The loop over `i` of `writeOut` for row `j`: one `fprintf` per grid point, or `none` when
an index falls outside the buffer. -/
def writeRow (rt : Runtime) (sx : Int) (real_array : List float2) (j : Int) :
    List Int → Option (List Event)
  | [] => some []
  | i :: is =>
    let index := wrapInt32 (wrapInt32 (j * sx) + i)
    match readAt real_array index with
    | none => none
    | some v =>
      (writeRow rt sx real_array j is).map (fun rest =>
        Event.fprintf (toString i ++ ", " ++ toString j ++ ", " ++ rt.fmt_f v.x ++ "\n") :: rest)

/-- The loop over `j` of `writeOut`. -/
def writeRows (rt : Runtime) (sx : Int) (real_array : List float2) :
    List Int → Option (List Event)
  | [] => some []
  | j :: js =>
    match writeRow rt sx real_array j (intRange sx) with
    | none => none
    | some row => (writeRows rt sx real_array js).map (fun rest => row ++ rest)

/-- The name of the file `writeOut` opens for a field. -/
def fileName (name : String) (currentTimeStep : Int) : String :=
  "data/" ++ name ++ ".csv." ++ toString currentTimeStep

/-- The body of the loop over `k` of `writeOut` for one field.  The result of `fopen` is not
tested by the source: on `NULL` the first `fprintf` is undefined behaviour. -/
def writeField (rt : Runtime) (s : evolver) (f : field) : Except Fault (List Event) :=
  if f.outputToFile then
    if rt.fopen (fileName f.name s.currentTimeStep) "w+" then
      match writeRows rt s.sx f.real_array (intRange s.sy) with
      | none => Except.error Fault.bufferIndex
      | some rows =>
        Except.ok ([Event.fopen (fileName f.name s.currentTimeStep) "w+",
          Event.fprintf ("x, y, " ++ f.name ++ "\n")] ++ rows ++ [Event.fclose])
    else Except.error Fault.nullFile
  else Except.ok []

/-- The loop over `k` of `writeOut`. -/
def writeFields (rt : Runtime) (s : evolver) : List field → Except Fault (List Event)
  | [] => Except.ok []
  | f :: fs =>
    match writeField rt s f with
    | Except.error what => Except.error what
    | Except.ok evs =>
      match writeFields rt s fs with
      | Except.error what => Except.error what
      | Except.ok rest => Except.ok (evs ++ rest)

/-- The method `evolver::writeOut()`. -/
def evolver.writeOut (rt : Runtime) (s0 : evolver) : Outcome Unit :=
  let s := if s0.with_cuda then s0.copyAllDataToHost else s0
  match s.fields[0]? with
  | none => Outcome.fault Fault.vectorIndex
  | some f0 =>
    match f0.real_array[0]? with
    | none => Outcome.fault Fault.bufferIndex
    | some v =>
      let c1 := v.x
      if float.ne c1 c1 then
        Outcome.exit (-1) [Event.enter_writeOut s.currentTimeStep,
                           Event.cout "NaN detected, exiting!\n"]
      else
        match writeFields rt s s.fields with
        | Except.error what => Outcome.fault what
        | Except.ok evs => Outcome.ret () s (Event.enter_writeOut s.currentTimeStep :: evs)

/-! ## `evolver::advanceTime` -/

/-- The call `fields[i]->updateTerms()`. -/
def callUpdateTerms (rt : Runtime) (s : evolver) (i : Nat) : evolver × Event :=
  ({ s with fields := s.fields.modify (fun f => f.withBuffers (rt.updateTerms s.fields i)) i },
   Event.updateTerms i)

/-- The call `fields[i]->setRHS(dt)`. -/
def callSetRHS (rt : Runtime) (s : evolver) (i : Nat) : evolver × Event :=
  ({ s with fields := s.fields.modify (fun f => f.withBuffers (rt.setRHS s.dt s.fields i)) i },
   Event.setRHS i s.dt)

/-- One loop of `advanceTime`: for the positions `i` in turn, `call` is made when `sel` holds of
`fields[i]`.  The bound `fields.size()` is the same at every iteration: the calls replace
buffers only. -/
def forEachField (sel : field → Bool) (call : evolver → Nat → evolver × Event) :
    List Nat → evolver → evolver × List Event
  | [], s => (s, [])
  | i :: is, s =>
    match s.fields[i]? with
    | none => forEachField sel call is s
    | some f =>
      if sel f then
        let r := call s i
        let rest := forEachField sel call is r.1
        (rest.1, r.2 :: rest.2)
      else forEachField sel call is s

/-- The four loops of `advanceTime`. -/
def updateAllFields (rt : Runtime) (s : evolver) : evolver × List Event :=
  let r1 := forEachField (fun f => !f.dynamic) (callUpdateTerms rt) (List.range s.fields.length) s
  let r2 := forEachField (fun f => !f.dynamic) (callSetRHS rt) (List.range r1.1.fields.length) r1.1
  let r3 := forEachField (fun f => f.dynamic) (callUpdateTerms rt) (List.range r2.1.fields.length) r2.1
  let r4 := forEachField (fun f => f.dynamic) (callSetRHS rt) (List.range r3.1.fields.length) r3.1
  (r4.1, r1.2 ++ r2.2 ++ r3.2 ++ r4.2)

/-- The mark left by `currentTimeStep += 1` when the sum leaves the range of `int`. -/
def overflowMark (currentTimeStep : Int) : List Event :=
  if 2147483647 < currentTimeStep + 1 then [Event.signed_overflow] else []

/-- The method `evolver::advanceTime()`.  The modulo is undefined for a zero divisor and for
`INT_MIN % -1` (both trap); the overflow of `currentTimeStep += 1` is marked and the wrapped
value stored. -/
def evolver.advanceTime (rt : Runtime) (s : evolver) : Outcome Int :=
  if s.writeEveryNSteps = 0 then Outcome.fault Fault.divideByZero
  else if s.currentTimeStep = -2147483648 ∧ s.writeEveryNSteps = -1 then
    Outcome.fault Fault.divideOverflow
  else
    let w : Outcome Unit :=
      if Int.tmod s.currentTimeStep s.writeEveryNSteps = 0 then s.writeOut rt
      else Outcome.ret () s []
    match w with
    | Outcome.fault what => Outcome.fault what
    | Outcome.exit status out => Outcome.exit status out
    | Outcome.ret _ s1 out1 =>
      let r := updateAllFields rt s1
      Outcome.ret 0
        { r.1 with currentTime := rt.add r.1.currentTime r.1.dt,
                   currentTimeStep := wrapInt32 (r.1.currentTimeStep + 1) }
        (out1 ++ r.2 ++ overflowMark r.1.currentTimeStep)

/-- The events of `n` successive calls of `advanceTime`, call by call with the value each
returned; the run stops at the first call that does not return. -/
def runSteps (rt : Runtime) : Nat → evolver → Outcome (List (Int × List Event))
  | 0, s => Outcome.ret [] s []
  | n + 1, s =>
    match s.advanceTime rt with
    | Outcome.fault what => Outcome.fault what
    | Outcome.exit status out => Outcome.exit status out
    | Outcome.ret v s1 out1 =>
      match runSteps rt n s1 with
      | Outcome.fault what => Outcome.fault what
      | Outcome.exit status out => Outcome.exit status (out1 ++ out)
      | Outcome.ret calls s2 out2 => Outcome.ret ((v, out1) :: calls) s2 (out1 ++ out2)

/-! ## Definitions used to state the properties -/

/-- The field `createField` appends when the name is new. -/
def createdField (rt : Runtime) (s : evolver) (name : String) (dynamic : Bool) : field :=
  { rt.field_ctor s.sx s.sy s.dx s.dy with
    name := name, isCUDA := s.with_cuda, dynamic := dynamic,
    blocks := s.blocks, threads_per_block := s.threads_per_block }

/-- The term `createTerm` attaches to the target field. -/
def createdTerm (s : evolver) (_prefactors : List pres) (_product : List String) : term :=
  { term.ctor s.sx s.sy s.dx s.dy with
    isCUDA := s.with_cuda,
    product := buildProduct s.fields _product,
    prefactors_h := pushPrefactors [] _prefactors,
    blocks := s.blocks, threads_per_block := s.threads_per_block }

/-- The position of the first field named `name`, when there is one. -/
def positionOf (name : String) : List field → Option Nat
  | [] => none
  | f :: fs => if f.name = name then some 0 else (positionOf name fs).map (fun p => p + 1)

/-- The operand list as the specification words it: a name that matches no registered field is
dropped, every other name is replaced by the (position of the) field of that name; order and
repetitions are kept. -/
def spec_product (fields : List field) (_product : List String) : List Nat :=
  _product.filterMap (fun name => positionOf name fields)

/-- Whether an event is one of the two `field` method calls of `advanceTime`. -/
def Event.isCall : Event → Bool
  | Event.updateTerms _ => true
  | Event.setRHS _ _ => true
  | _ => false

/-- The field (position) a method call is made on. -/
def Event.target : Event → Option Nat
  | Event.updateTerms k => some k
  | Event.setRHS k _ => some k
  | _ => none

/-- Whether an event is a file operation of `writeOut`. -/
def Event.isFile : Event → Bool
  | Event.fopen _ _ => true
  | Event.fprintf _ => true
  | Event.fclose => true
  | _ => false

/-- The step counter seen by an entry into `writeOut`. -/
def Event.enteredStep : Event → Option Int
  | Event.enter_writeOut k => some k
  | _ => none

/-- The `dynamic` flag of each field, in order. -/
def dynFlags (fields : List field) : List Bool := fields.map (fun f => f.dynamic)

/-- The positions, in insertion order, of the fields of one phase: the non-dynamic ones
(`dynamic = false`) or the dynamic ones (`dynamic = true`). -/
def phase (fields : List field) (dynamic : Bool) : List Nat :=
  (List.range fields.length).filter (fun k => (dynFlags fields)[k]? == some dynamic)

/-- The call sequence of one phase as the source issues it: all `updateTerms`, then all
`setRHS`. -/
def batchedCalls (dt : float) (ks : List Nat) : List Event :=
  ks.map Event.updateTerms ++ ks.map (fun k => Event.setRHS k dt)

/-- The call sequence of one phase as the specification words it: field by field,
`updateTerms` then `setRHS`. -/
def spec_interleavedCalls (dt : float) : List Nat → List Event
  | [] => []
  | k :: ks => Event.updateTerms k :: Event.setRHS k dt :: spec_interleavedCalls dt ks

/-- What a loop of `advanceTime` preserves: everything but the buffers. -/
def sameConfig (s t : evolver) : Prop :=
  dynFlags t.fields = dynFlags s.fields ∧ t.dt = s.dt ∧ t.currentTimeStep = s.currentTimeStep ∧
  t.writeEveryNSteps = s.writeEveryNSteps ∧ t.fields.length = s.fields.length

/-- The evolver `writeOut` works on: the one it is given, after the device-to-host copy when
`with_cuda` is set. -/
def evolver.synced (s : evolver) : evolver :=
  if s.with_cuda then s.copyAllDataToHost else s

/-- The text of one data line, `"%i, %i, %f\n"`. -/
def dataLine (rt : Runtime) (i j : Int) (v : float2) : String :=
  toString i ++ ", " ++ toString j ++ ", " ++ rt.fmt_f v.x ++ "\n"

/-- The sample `real_array[k]` (zero outside the buffer). -/
def sampleAt (real_array : List float2) (k : Nat) : float2 :=
  (real_array[k]?).getD ⟨⟨0⟩, ⟨0⟩⟩

/-- The data lines as the specification words them: one line `i, j, value` per grid point, `j`
outer and `i` inner, the value being the real part of `real_array[j*sx + i]`. -/
def spec_dataLines (rt : Runtime) (sx sy : Int) (real_array : List float2) : List Event :=
  ((List.range sy.toNat).map (fun (j : Nat) => (List.range sx.toNat).map (fun (i : Nat) =>
    Event.fprintf (dataLine rt (i : Int) (j : Int)
      (sampleAt real_array (j * sx.toNat + i)))))).flatten

/-- The file the specification describes for one field at an output epoch: none when
`outputToFile` is unset, otherwise the file `data/<name>.csv.<step>` holding the header line
`x, y, <name>` and the data lines. -/
def spec_fileEvents (rt : Runtime) (s : evolver) (f : field) : List Event :=
  if f.outputToFile then
    [Event.fopen ("data/" ++ f.name ++ ".csv." ++ toString s.currentTimeStep) "w+",
     Event.fprintf ("x, y, " ++ f.name ++ "\n")] ++
      spec_dataLines rt s.sx s.sy f.real_array ++ [Event.fclose]
  else []

/-- The buffers of every registered field hold one sample per grid point. -/
def buffersMatchGrid (s : evolver) : Prop :=
  ∀ f ∈ s.fields, f.real_array.length = (s.sx * s.sy).toNat ∧
    f.real_array_d.length = (s.sx * s.sy).toNat

/-- The events of one call of `advanceTime` entered with step counter `c` under the cadence `N`:
the events `W` of `writeOut`, then the method calls `U`; `W` starts with the entry into
`writeOut`, which saw the counter `c`, and goes on with file operations when `c` is a multiple of
`N`, and is empty otherwise. -/
def stepShape (N c : Int) (evs : List Event) : Prop :=
  ∃ W U : List Event, evs = W ++ U ∧ (∀ e ∈ U, e.isCall = true) ∧
    ((c % N = 0 ∧ ∃ files : List Event,
        W = Event.enter_writeOut c :: files ∧ ∀ e ∈ files, e.isFile = true) ∨
      (c % N ≠ 0 ∧ W = []))

/-! ## Test data -/

/-- A runtime in which every `fopen` succeeds and whose field methods leave the buffers as they
are. -/
def rtId : Runtime :=
  { WITHCUDA := false
    sqrt := fun a => a
    add := fun a _ => a
    fmt_f := fun a => toString a.bits
    fopen := fun _ _ => true
    field_ctor := fun sx sy dx dy =>
      { sx := sx, sy := sy, dx := dx, dy := dy, name := "", dynamic := false, isCUDA := false,
        outputToFile := false,
        real_array := List.replicate (sx * sy).toNat ⟨⟨0⟩, ⟨0⟩⟩,
        comp_array := List.replicate (sx * sy).toNat ⟨⟨0⟩, ⟨0⟩⟩,
        real_array_d := List.replicate (sx * sy).toNat ⟨⟨0⟩, ⟨0⟩⟩,
        comp_array_d := List.replicate (sx * sy).toNat ⟨⟨0⟩, ⟨0⟩⟩,
        terms := [], threads_per_block := ⟨1, 1, 1⟩, blocks := ⟨1, 1, 1⟩ }
    updateTerms := fun fs k =>
      match fs[k]? with
      | some f => ⟨f.real_array, f.comp_array, f.real_array_d, f.comp_array_d⟩
      | none => ⟨[], [], [], []⟩
    setRHS := fun _ fs k =>
      match fs[k]? with
      | some f => ⟨f.real_array, f.comp_array, f.real_array_d, f.comp_array_d⟩
      | none => ⟨[], [], [], []⟩ }

/-- The runtime `rtId` with every `fopen` failing (no `data` directory, say). -/
def rtNoFile : Runtime := { rtId with fopen := fun _ _ => false }

/-- An evolver on a 2 x 2 grid with the dynamic field `"u"` and the non-dynamic field `"v"`. -/
def twoFields : evolver :=
  (((evolver.ctor rtId false 2 2 ⟨0⟩ ⟨0⟩ ⟨0⟩ 1).1.createField rtId "u" true).2.1.createField
    rtId "v" false).2.1

/-- An evolver on a 2 x 2 grid with the non-dynamic fields `"a"` and `"b"`. -/
def twoStatic : evolver :=
  (((evolver.ctor rtId false 2 2 ⟨0⟩ ⟨0⟩ ⟨0⟩ 1).1.createField rtId "a" false).2.1.createField
    rtId "b" false).2.1

/-- A quiet NaN (bit pattern `0x7fc00000`). -/
def quietNaN : float := ⟨2143289344⟩

/-- An evolver on a 1 x 1 grid whose only field `"u"` has a NaN as first sample. -/
def nanFirst : evolver :=
  ((evolver.ctor rtId false 1 1 ⟨0⟩ ⟨0⟩ ⟨0⟩ 1).1.addField
    { rtId.field_ctor 1 1 ⟨0⟩ ⟨0⟩ with
      name := "u", outputToFile := true, real_array := [⟨quietNaN, ⟨0⟩⟩] })

/-- An evolver on a 2 x 1 grid whose only field `"u"` has a NaN as second sample only. -/
def nanSecond : evolver :=
  ((evolver.ctor rtId false 2 1 ⟨0⟩ ⟨0⟩ ⟨0⟩ 1).1.addField
    { rtId.field_ctor 2 1 ⟨0⟩ ⟨0⟩ with
      name := "u", outputToFile := true, real_array := [⟨⟨0⟩, ⟨0⟩⟩, ⟨quietNaN, ⟨0⟩⟩] })

/-- An evolver on a 2 x 2 grid with the single field `"u"`, written to file. -/
def smallGrid : evolver :=
  (((evolver.ctor rtId false 2 2 ⟨0⟩ ⟨0⟩ ⟨0⟩ 100).1.createField rtId "u"
    true).2.1.setOutputField "u" 1).1

/-- The field of `smallGrid`. -/
def smallField : field :=
  { createdField rtId (evolver.ctor rtId false 2 2 ⟨0⟩ ⟨0⟩ ⟨0⟩ 100).1 "u" true with
    outputToFile := true }

/-- An evolver on a `2147483647 x 2` grid with the single field `"u"`, written to file, whose
buffers hold `2147483647 * 2` samples. -/
def hugeGrid : evolver :=
  (((evolver.ctor rtId false 2147483647 2 ⟨0⟩ ⟨0⟩ ⟨0⟩ 1).1.createField rtId "u"
    true).2.1.setOutputField "u" 1).1

/-- The field of `hugeGrid`. -/
def hugeField : field :=
  { createdField rtId (evolver.ctor rtId false 2147483647 2 ⟨0⟩ ⟨0⟩ ⟨0⟩ 1).1 "u" true with
    outputToFile := true }

/-- A just constructed evolver on a 1 x 1 grid, cadence 1, with the single field `"u"`. -/
def tinyRun : evolver :=
  ((evolver.ctor rtId false 1 1 ⟨0⟩ ⟨0⟩ ⟨0⟩ 1).1.createField rtId "u" true).2.1

/-- The states a run started at `tinyRun` goes through. -/
def tinyRunLike (s : evolver) : Prop :=
  s.with_cuda = false ∧ s.writeEveryNSteps = 1 ∧ s.fields = tinyRun.fields ∧ s.dt = tinyRun.dt

/-! ## Lemmas on the name search -/

theorem nameExists_iff (name : String) (fs : List field) :
    nameExists name fs = true ↔ ∃ f ∈ fs, f.name = name := by
  induction fs with
  | nil => simp [nameExists]
  | cons g gs ih =>
    by_cases h : g.name = name
    · simp [nameExists, h]
    · simp [nameExists, h, ih]

theorem findFieldIndex_none (_field : String) (fs : List field) (i0 : Nat)
    (h : ∀ f ∈ fs, f.name ≠ _field) : findFieldIndex _field i0 fs = -1 := by
  induction fs generalizing i0 with
  | nil => rfl
  | cons g gs ih =>
    have hg : g.name ≠ _field := h g (by simp)
    simp only [findFieldIndex, hg, if_false]
    exact ih (i0 + 1) (fun f hf => h f (by simp [hf]))

theorem findFieldIndex_first (_field : String) (fs : List field) (i0 p : Nat) (f : field)
    (hp : fs[p]? = some f) (hf : f.name = _field)
    (hfirst : ∀ (j : Nat) (g : field), j < p → fs[j]? = some g → g.name ≠ _field) :
    findFieldIndex _field i0 fs = ((i0 + p : Nat) : Int) := by
  induction fs generalizing i0 p with
  | nil => simp at hp
  | cons g gs ih =>
    cases p with
    | zero =>
      simp at hp
      subst hp
      simp [findFieldIndex, hf]
    | succ q =>
      have hg : g.name ≠ _field := hfirst 0 g (by omega) (by simp)
      simp only [findFieldIndex, hg, if_false]
      have hq : gs[q]? = some f := by simpa using hp
      rw [ih (i0 + 1) q hq (fun j g2 hj hg2 => hfirst (j + 1) g2 (by omega) (by simpa using hg2))]
      congr 1
      omega

theorem exists_first_named (_field : String) (fs : List field)
    (h : ∃ f ∈ fs, f.name = _field) :
    ∃ (p : Nat) (f : field), fs[p]? = some f ∧ f.name = _field ∧
      ∀ (j : Nat) (g : field), j < p → fs[j]? = some g → g.name ≠ _field := by
  induction fs with
  | nil => simp at h
  | cons g gs ih =>
    by_cases hg : g.name = _field
    · exact ⟨0, g, by simp, hg, fun j _ hj _ => absurd hj (by omega)⟩
    · have h2 : ∃ f ∈ gs, f.name = _field := by
        obtain ⟨f, hf, hn⟩ := h
        rcases List.mem_cons.1 hf with rfl | hf2
        · exact absurd hn hg
        · exact ⟨f, hf2, hn⟩
      obtain ⟨p, f, hp, hf, hfirst⟩ := ih h2
      refine ⟨p + 1, f, by simpa using hp, hf, ?_⟩
      intro j g2 hj hg2
      cases j with
      | zero =>
        simp at hg2
        subst hg2
        exact hg
      | succ k => exact hfirst k g2 (by omega) (by simpa using hg2)

/-! ## C1: `createField` -/

theorem createField_of_exists (rt : Runtime) (s : evolver) (name : String) (dynamic : Bool)
    (h : nameExists name s.fields = true) :
    s.createField rt name dynamic =
      (1, s, [Event.cout "Trying to create field with name that already exists\n"]) := by
  simp only [evolver.createField, h, if_true]

theorem createField_of_fresh (rt : Runtime) (s : evolver) (name : String) (dynamic : Bool)
    (h : nameExists name s.fields = false) :
    (s.createField rt name dynamic).1 = 0 ∧
    (s.createField rt name dynamic).2.1.fields = s.fields ++ [createdField rt s name dynamic] ∧
    (s.createField rt name dynamic).2.2 = [] := by
  simp only [evolver.createField, h]
  exact ⟨rfl, rfl, rfl⟩

/-- C1. `createField(name, dynamic)` returns 1, reports the error and leaves the evolver (so its
field list) unchanged exactly when a registered field already has that name; otherwise it
returns 0 and appends one field carrying that name and that flag at the end of the list.  Calling
it a second time with the same name is refused and leaves exactly one field of that name. -/
theorem createField_registers_name_once (rt : Runtime) (s : evolver) (name : String)
    (dynamic : Bool) :
    ((s.createField rt name dynamic).1 = 1 ↔ ∃ f ∈ s.fields, f.name = name) ∧
    ((∃ f ∈ s.fields, f.name = name) →
      (s.createField rt name dynamic).2.1 = s ∧
      (s.createField rt name dynamic).2.2 =
        [Event.cout "Trying to create field with name that already exists\n"]) ∧
    ((¬ ∃ f ∈ s.fields, f.name = name) →
      (s.createField rt name dynamic).1 = 0 ∧
      ∃ newField : field,
        (s.createField rt name dynamic).2.1.fields = s.fields ++ [newField] ∧
        newField.name = name ∧ newField.dynamic = dynamic) ∧
    ((¬ ∃ f ∈ s.fields, f.name = name) → ∀ dynamic2 : Bool,
      ((s.createField rt name dynamic).2.1.createField rt name dynamic2).1 = 1 ∧
      ((((s.createField rt name dynamic).2.1.createField rt name dynamic2).2.1.fields.filter
        (fun f => f.name = name)).length = 1)) := by
  by_cases h : ∃ f ∈ s.fields, f.name = name
  · have hb : nameExists name s.fields = true := (nameExists_iff name s.fields).2 h
    rw [createField_of_exists rt s name dynamic hb]
    exact ⟨⟨fun _ => h, fun _ => rfl⟩, fun _ => ⟨rfl, rfl⟩, fun hn => absurd h hn,
      fun hn => absurd h hn⟩
  · have hb : nameExists name s.fields = false := by
      cases hx : nameExists name s.fields with
      | false => rfl
      | true => exact absurd ((nameExists_iff name s.fields).1 hx) h
    have hfil : s.fields.filter (fun f => decide (f.name = name)) = [] := by
      rw [List.filter_eq_nil_iff]
      intro f hf
      simp only [decide_eq_true_eq]
      intro hn
      exact h ⟨f, hf, hn⟩
    obtain ⟨h1, h2, _⟩ := createField_of_fresh rt s name dynamic hb
    refine ⟨?_, fun hn => absurd hn h, fun _ => ⟨h1, _, h2, rfl, rfl⟩, ?_⟩
    · rw [h1]
      exact ⟨fun h01 => absurd h01 (by decide), fun hn => absurd hn h⟩
    · intro _ dynamic2
      have hb2 : nameExists name (s.createField rt name dynamic).2.1.fields = true := by
        rw [nameExists_iff, h2]
        exact ⟨createdField rt s name dynamic, by simp, rfl⟩
      rw [createField_of_exists rt _ name dynamic2 hb2]
      refine ⟨rfl, ?_⟩
      show (List.filter (fun f => decide (f.name = name))
        (s.createField rt name dynamic).2.1.fields).length = 1
      rw [h2, List.filter_append, hfil]
      simp [createdField]

/-- Witness for C1: registering `"u"` twice on an empty evolver. -/
theorem createField_registers_name_once_witness :
    (((evolver.ctor rtId false 2 2 ⟨0⟩ ⟨0⟩ ⟨0⟩ 1).1.createField rtId "u" true).2.1.createField
        rtId "u" false).1 = 1 ∧
    (((((evolver.ctor rtId false 2 2 ⟨0⟩ ⟨0⟩ ⟨0⟩ 1).1.createField rtId "u" true).2.1.createField
        rtId "u" false).2.1.fields.filter (fun f => f.name = "u")).length = 1) :=
  (createField_registers_name_once rtId (evolver.ctor rtId false 2 2 ⟨0⟩ ⟨0⟩ ⟨0⟩ 1).1 "u"
    true).2.2.2 (by simp [evolver.ctor]) false

/-! ## C2, C3: `createTerm` -/

theorem pushPrefactors_eq (acc ps : List pres) : pushPrefactors acc ps = acc ++ ps := by
  induction ps generalizing acc with
  | nil => simp [pushPrefactors]
  | cons p ps ih => simp [pushPrefactors, ih]

theorem createTerm_of_none (s : evolver) (_field : String) (_prefactors : List pres)
    (_product : List String) (h : findFieldIndex _field 0 s.fields = -1) :
    s.createTerm _field _prefactors _product =
      (1, s, [Event.cout ("Field " ++ _field ++ " not found trying to create term\n")]) := by
  simp only [evolver.createTerm, h, if_true]

theorem createTerm_of_index (s : evolver) (_field : String) (_prefactors : List pres)
    (_product : List String) (p : Nat) (h : findFieldIndex _field 0 s.fields = (p : Int)) :
    s.createTerm _field _prefactors _product =
      (0, { s with fields := pushTerm s.fields p (createdTerm s _prefactors _product) }, []) := by
  have hne : ((p : Nat) : Int) ≠ -1 := by omega
  simp only [evolver.createTerm, h, hne, if_false, Int.toNat_ofNat]
  rfl

theorem positionOf_eq_some (name : String) (fs : List field) (p : Nat) (f : field)
    (hp : fs[p]? = some f) (hf : f.name = name)
    (hfirst : ∀ (j : Nat) (g : field), j < p → fs[j]? = some g → g.name ≠ name) :
    positionOf name fs = some p := by
  induction fs generalizing p with
  | nil => simp at hp
  | cons g gs ih =>
    cases p with
    | zero =>
      simp at hp
      subst hp
      simp [positionOf, hf]
    | succ q =>
      have hg : g.name ≠ name := hfirst 0 g (by omega) (by simp)
      have hq : gs[q]? = some f := by simpa using hp
      simp only [positionOf, hg, if_false]
      rw [ih q hq (fun j g2 hj hg2 => hfirst (j + 1) g2 (by omega) (by simpa using hg2))]
      rfl

theorem positionOf_eq_none (name : String) (fs : List field)
    (h : ∀ f ∈ fs, f.name ≠ name) : positionOf name fs = none := by
  induction fs with
  | nil => rfl
  | cons g gs ih =>
    have hg : g.name ≠ name := h g (by simp)
    simp only [positionOf, hg, if_false]
    rw [ih (fun f hf => h f (by simp [hf]))]
    rfl

theorem positionOf_some_name (name : String) (fs : List field) (p : Nat)
    (h : positionOf name fs = some p) : (fs[p]?).map (fun f => f.name) = some name := by
  induction fs generalizing p with
  | nil => simp [positionOf] at h
  | cons g gs ih =>
    by_cases hg : g.name = name
    · simp only [positionOf, hg, if_true, Option.some.injEq] at h
      subst h
      simp [hg]
    · simp only [positionOf, hg, if_false] at h
      cases hq : positionOf name gs with
      | none => simp [hq] at h
      | some q =>
        simp only [hq, Option.map_some', Option.some.injEq] at h
        subst h
        simpa using ih q hq

theorem matchingFields_none (name : String) (fs : List field) (j0 : Nat)
    (h : ∀ f ∈ fs, f.name ≠ name) : matchingFields name j0 fs = [] := by
  induction fs generalizing j0 with
  | nil => rfl
  | cons g gs ih =>
    have hg : ¬ name = g.name := fun e => h g (by simp) e.symm
    simp only [matchingFields, hg, if_false]
    exact ih (j0 + 1) (fun f hf => h f (by simp [hf]))

/-- With pairwise distinct names the inner loop of `createTerm` pushes at most one field: the one
of that name. -/
theorem matchingFields_nodup (name : String) (fs : List field) (j0 : Nat)
    (hnd : (fs.map (fun f => f.name)).Nodup) :
    matchingFields name j0 fs = ((positionOf name fs).map (fun p => j0 + p)).toList := by
  induction fs generalizing j0 with
  | nil => rfl
  | cons g gs ih =>
    rw [List.map_cons, List.nodup_cons] at hnd
    by_cases hg : g.name = name
    · have hrest : ∀ f ∈ gs, f.name ≠ name := by
        intro f hf hn
        apply hnd.1
        rw [hg, ← hn]
        exact List.mem_map_of_mem (fun f => f.name) hf
      simp only [matchingFields, hg, if_true, positionOf]
      rw [matchingFields_none name gs (j0 + 1) hrest]
      rfl
    · have hg2 : ¬ name = g.name := fun e => hg e.symm
      simp only [matchingFields, hg2, if_false, positionOf, hg]
      rw [ih (j0 + 1) hnd.2]
      cases positionOf name gs with
      | none => rfl
      | some q =>
        simp only [Option.map_some', Option.toList_some, List.cons.injEq, and_true]
        omega

theorem buildProduct_nodup (fs : List field) (_product : List String)
    (hnd : (fs.map (fun f => f.name)).Nodup) :
    buildProduct fs _product = spec_product fs _product := by
  induction _product with
  | nil => rfl
  | cons name rest ih =>
    simp only [buildProduct, spec_product, List.filterMap_cons]
    rw [matchingFields_nodup name fs 0 hnd, ih]
    cases positionOf name fs with
    | none => rfl
    | some q => simp [spec_product]

theorem spec_product_names (fs : List field) (_product : List String) :
    (spec_product fs _product).map (fun p => (fs[p]?).map (fun f => f.name)) =
      (_product.filter (fun name => decide (name ∈ fs.map (fun f => f.name)))).map some := by
  induction _product with
  | nil => rfl
  | cons name rest ih =>
    by_cases hmem : name ∈ fs.map (fun f => f.name)
    · have hex : ∃ f ∈ fs, f.name = name := by
        obtain ⟨f, hf, hn⟩ := List.mem_map.1 hmem
        exact ⟨f, hf, hn⟩
      obtain ⟨p, f, hp, hf, hfirst⟩ := exists_first_named name fs hex
      have hpos := positionOf_eq_some name fs p f hp hf hfirst
      have hnm := positionOf_some_name name fs p hpos
      have hstep : spec_product fs (name :: rest) = p :: spec_product fs rest := by
        simp [spec_product, List.filterMap_cons, hpos]
      rw [hstep, List.map_cons, ih, hnm, List.filter_cons_of_pos (by simpa using hmem)]
      rfl
    · have hnone : positionOf name fs = none :=
        positionOf_eq_none name fs (fun f hf hn => hmem (hn ▸ List.mem_map_of_mem _ hf))
      have hstep : spec_product fs (name :: rest) = spec_product fs rest := by
        simp [spec_product, List.filterMap_cons, hnone]
      rw [hstep, ih, List.filter_cons_of_neg (by simpa using hmem)]

/-- C2. When no registered field is named `_field`, `createTerm` returns 1, reports it and leaves
the evolver unchanged (field list and every term list).  When one is, it returns 0; the first
field of that name gets exactly one term appended to its term list, and every other field is
unchanged. -/
theorem createTerm_attaches_one_term (s : evolver) (_field : String) (_prefactors : List pres)
    (_product : List String) :
    ((∀ f ∈ s.fields, f.name ≠ _field) →
      (s.createTerm _field _prefactors _product).1 = 1 ∧
      (s.createTerm _field _prefactors _product).2.1 = s) ∧
    ((∃ f ∈ s.fields, f.name = _field) →
      (s.createTerm _field _prefactors _product).1 = 0) ∧
    (∀ (i : Nat) (f : field), s.fields[i]? = some f → f.name = _field →
      (∀ (j : Nat) (g : field), j < i → s.fields[j]? = some g → g.name ≠ _field) →
      (s.createTerm _field _prefactors _product).1 = 0 ∧
      (s.createTerm _field _prefactors _product).2.1.fields.length = s.fields.length ∧
      (∃ newTerm : term,
        (s.createTerm _field _prefactors _product).2.1.fields[i]? =
          some { f with terms := f.terms ++ [newTerm] }) ∧
      (∀ j : Nat, j ≠ i →
        (s.createTerm _field _prefactors _product).2.1.fields[j]? = s.fields[j]?)) := by
  have key : ∀ (i : Nat) (f : field), s.fields[i]? = some f → f.name = _field →
      (∀ (j : Nat) (g : field), j < i → s.fields[j]? = some g → g.name ≠ _field) →
      s.createTerm _field _prefactors _product =
        (0, { s with fields := pushTerm s.fields i (createdTerm s _prefactors _product) }, []) := by
    intro i f hi hf hfirst
    apply createTerm_of_index
    have := findFieldIndex_first _field s.fields 0 i f hi hf hfirst
    simpa using this
  refine ⟨?_, ?_, ?_⟩
  · intro h
    rw [createTerm_of_none s _field _prefactors _product (findFieldIndex_none _field s.fields 0 h)]
    exact ⟨rfl, rfl⟩
  · intro h
    obtain ⟨p, f, hp, hf, hfirst⟩ := exists_first_named _field s.fields h
    rw [key p f hp hf hfirst]
  · intro i f hi hf hfirst
    rw [key i f hi hf hfirst]
    refine ⟨rfl, ?_, ⟨createdTerm s _prefactors _product, ?_⟩, ?_⟩
    · simp [pushTerm]
    · simp [pushTerm, hi]
    · intro j hj
      simp [pushTerm, List.getElem?_modify_ne _ _ (Ne.symm hj)]

/-- Witness for C2: a term for `"u"` on an evolver holding `"u"` and `"v"`. -/
theorem createTerm_attaches_one_term_witness :
    (twoFields.createTerm "u" [] ["v", "zz", "v"]).1 = 0 :=
  (createTerm_attaches_one_term twoFields "u" [] ["v", "zz", "v"]).2.1
    ⟨createdField rtId (evolver.ctor rtId false 2 2 ⟨0⟩ ⟨0⟩ ⟨0⟩ 1).1 "u" true, by decide, rfl⟩

/-- C3. With pairwise distinct field names, a successful `createTerm` returns 0 and the term it
attaches has, as operand list, the given names with every name matching no registered field
dropped and every other name replaced by the field of that name (order and repetitions kept), and
as prefactor list the given prefactors in the same order. -/
theorem createTerm_operands_and_prefactors (s : evolver) (_field : String)
    (_prefactors : List pres) (_product : List String)
    (hnames : (s.fields.map (fun f => f.name)).Nodup)
    (hfield : ∃ f ∈ s.fields, f.name = _field) :
    (s.createTerm _field _prefactors _product).1 = 0 ∧
    ∃ (i : Nat) (f : field) (newTerm : term),
      s.fields[i]? = some f ∧ f.name = _field ∧
      (s.createTerm _field _prefactors _product).2.1.fields[i]? =
        some { f with terms := f.terms ++ [newTerm] } ∧
      newTerm.product = spec_product s.fields _product ∧
      newTerm.product.map (fun p => (s.fields[p]?).map (fun g => g.name)) =
        (_product.filter (fun name => decide (name ∈ s.fields.map (fun g => g.name)))).map
          some ∧
      newTerm.prefactors_h = _prefactors := by
  obtain ⟨p, f, hp, hf, hfirst⟩ := exists_first_named _field s.fields hfield
  have hidx := findFieldIndex_first _field s.fields 0 p f hp hf hfirst
  rw [createTerm_of_index s _field _prefactors _product p (by simpa using hidx)]
  have hprod : (createdTerm s _prefactors _product).product = spec_product s.fields _product :=
    buildProduct_nodup s.fields _product hnames
  refine ⟨rfl, p, f, createdTerm s _prefactors _product, hp, hf, ?_, hprod, ?_, ?_⟩
  · simp [pushTerm, hp]
  · rw [hprod]
    exact spec_product_names s.fields _product
  · show pushPrefactors [] _prefactors = _prefactors
    rw [pushPrefactors_eq]
    rfl

/-- Witness for C3: the unknown operand `"zz"` is dropped, `"v"` is kept twice. -/
theorem createTerm_operands_and_prefactors_witness :
    (twoFields.createTerm "u" [] ["v", "zz", "v"]).1 = 0 ∧
    ∃ (i : Nat) (f : field) (newTerm : term),
      twoFields.fields[i]? = some f ∧ f.name = "u" ∧
      (twoFields.createTerm "u" [] ["v", "zz", "v"]).2.1.fields[i]? =
        some { f with terms := f.terms ++ [newTerm] } ∧
      newTerm.product = spec_product twoFields.fields ["v", "zz", "v"] ∧
      newTerm.product.map (fun p => (twoFields.fields[p]?).map (fun g => g.name)) =
        (["v", "zz", "v"].filter
          (fun name => decide (name ∈ twoFields.fields.map (fun g => g.name)))).map some ∧
      newTerm.prefactors_h = [] :=
  createTerm_operands_and_prefactors twoFields "u" [] ["v", "zz", "v"] (by decide)
    ⟨createdField rtId (evolver.ctor rtId false 2 2 ⟨0⟩ ⟨0⟩ ⟨0⟩ 1).1 "u" true, by decide, rfl⟩

/-! ## The four loops of `advanceTime` -/

theorem dynFlags_modify_withBuffers (fs : List field) (b : Buffers) (i : Nat) :
    dynFlags (fs.modify (fun f => f.withBuffers b) i) = dynFlags fs := by
  induction fs generalizing i with
  | nil => simp [dynFlags]
  | cons g gs ih =>
    cases i with
    | zero => simp [dynFlags, List.modify, field.withBuffers]
    | succ k =>
      have := ih k
      simp only [dynFlags, List.modify_succ_cons, List.map_cons] at this ⊢
      rw [this]

theorem sameConfig_refl (s : evolver) : sameConfig s s := ⟨rfl, rfl, rfl, rfl, rfl⟩

theorem sameConfig_trans {s t u : evolver} (h1 : sameConfig s t) (h2 : sameConfig t u) :
    sameConfig s u :=
  ⟨h2.1.trans h1.1, h2.2.1.trans h1.2.1, h2.2.2.1.trans h1.2.2.1,
    h2.2.2.2.1.trans h1.2.2.2.1, h2.2.2.2.2.trans h1.2.2.2.2⟩

theorem callUpdateTerms_sameConfig (rt : Runtime) (s : evolver) (i : Nat) :
    sameConfig s (callUpdateTerms rt s i).1 :=
  ⟨dynFlags_modify_withBuffers _ _ _, rfl, rfl, rfl, by simp [callUpdateTerms]⟩

theorem callSetRHS_sameConfig (rt : Runtime) (s : evolver) (i : Nat) :
    sameConfig s (callSetRHS rt s i).1 :=
  ⟨dynFlags_modify_withBuffers _ _ _, rfl, rfl, rfl, by simp [callSetRHS]⟩

/-- One loop of `advanceTime` calls the method on exactly the selected positions, in order. -/
theorem forEachField_events (g : Bool → Bool) (call : evolver → Nat → evolver × Event)
    (ev : evolver → Nat → Event)
    (hcfg : ∀ s i, sameConfig s (call s i).1)
    (hev : ∀ s i, (call s i).2 = ev s i)
    (hevc : ∀ s t i, sameConfig s t → ev t i = ev s i)
    (is : List Nat) (s : evolver) :
    sameConfig s (forEachField (fun f => g f.dynamic) call is s).1 ∧
    (forEachField (fun f => g f.dynamic) call is s).2 =
      (is.filter (fun i => (((dynFlags s.fields)[i]?).map g).getD false)).map (ev s) := by
  induction is generalizing s with
  | nil => exact ⟨sameConfig_refl s, rfl⟩
  | cons i is ih =>
    cases hf : s.fields[i]? with
    | none =>
      have hflag : (dynFlags s.fields)[i]? = none := by simp [dynFlags, hf]
      simp only [forEachField, hf, List.filter_cons, hflag, Option.map_none', Option.getD_none]
      exact ih s
    | some f =>
      have hflag : (dynFlags s.fields)[i]? = some f.dynamic := by simp [dynFlags, hf]
      by_cases hg : g f.dynamic = true
      · simp only [forEachField, hf, hg, if_true, List.filter_cons, hflag, Option.map_some',
          Option.getD_some, List.map_cons]
        have h1 := hcfg s i
        obtain ⟨ih1, ih2⟩ := ih (call s i).1
        refine ⟨sameConfig_trans h1 ih1, ?_⟩
        rw [ih2, hev, h1.1]
        congr 1
        apply List.map_congr_left
        intro k _
        exact hevc s (call s i).1 k h1
      · have hg2 : g f.dynamic = false := by simpa using hg
        simp only [forEachField, hf, hg2, List.filter_cons, hflag, Option.map_some',
          Option.getD_some]
        exact ih s

theorem phase_false_eq (fs : List field) :
    phase fs false =
      (List.range fs.length).filter (fun i => (((dynFlags fs)[i]?).map not).getD false) := by
  unfold phase
  apply List.filter_congr
  intro k _
  cases (dynFlags fs)[k]? with
  | none => rfl
  | some b => cases b <;> rfl

theorem phase_true_eq (fs : List field) :
    phase fs true =
      (List.range fs.length).filter (fun i => (((dynFlags fs)[i]?).map id).getD false) := by
  unfold phase
  apply List.filter_congr
  intro k _
  cases (dynFlags fs)[k]? with
  | none => rfl
  | some b => cases b <;> rfl

theorem phase_congr {fs gs : List field} (d : Bool) (h : dynFlags gs = dynFlags fs) :
    phase gs d = phase fs d := by
  have hl : gs.length = fs.length := by
    have := congrArg List.length h
    simpa [dynFlags] using this
  unfold phase
  rw [h, hl]

theorem loop_updateTerms_nonDynamic (rt : Runtime) (s : evolver) :
    sameConfig s (forEachField (fun f => !f.dynamic) (callUpdateTerms rt)
      (List.range s.fields.length) s).1 ∧
    (forEachField (fun f => !f.dynamic) (callUpdateTerms rt) (List.range s.fields.length) s).2 =
      (phase s.fields false).map Event.updateTerms := by
  rw [phase_false_eq]
  exact forEachField_events not (callUpdateTerms rt) (fun _ i => Event.updateTerms i)
    (callUpdateTerms_sameConfig rt) (fun _ _ => rfl) (fun _ _ _ _ => rfl) _ s

theorem loop_updateTerms_dynamic (rt : Runtime) (s : evolver) :
    sameConfig s (forEachField (fun f => f.dynamic) (callUpdateTerms rt)
      (List.range s.fields.length) s).1 ∧
    (forEachField (fun f => f.dynamic) (callUpdateTerms rt) (List.range s.fields.length) s).2 =
      (phase s.fields true).map Event.updateTerms := by
  rw [phase_true_eq]
  exact forEachField_events id (callUpdateTerms rt) (fun _ i => Event.updateTerms i)
    (callUpdateTerms_sameConfig rt) (fun _ _ => rfl) (fun _ _ _ _ => rfl) _ s

theorem setRHS_event_congr (u v : evolver) (i : Nat) (h : sameConfig u v) :
    Event.setRHS i v.dt = Event.setRHS i u.dt := by
  rw [h.2.1]

theorem loop_setRHS_nonDynamic (rt : Runtime) (s : evolver) :
    sameConfig s (forEachField (fun f => !f.dynamic) (callSetRHS rt)
      (List.range s.fields.length) s).1 ∧
    (forEachField (fun f => !f.dynamic) (callSetRHS rt) (List.range s.fields.length) s).2 =
      (phase s.fields false).map (fun k => Event.setRHS k s.dt) := by
  rw [phase_false_eq]
  exact forEachField_events not (callSetRHS rt) (fun u i => Event.setRHS i u.dt)
    (callSetRHS_sameConfig rt) (fun _ _ => rfl) setRHS_event_congr _ s

theorem loop_setRHS_dynamic (rt : Runtime) (s : evolver) :
    sameConfig s (forEachField (fun f => f.dynamic) (callSetRHS rt)
      (List.range s.fields.length) s).1 ∧
    (forEachField (fun f => f.dynamic) (callSetRHS rt) (List.range s.fields.length) s).2 =
      (phase s.fields true).map (fun k => Event.setRHS k s.dt) := by
  rw [phase_true_eq]
  exact forEachField_events id (callSetRHS rt) (fun u i => Event.setRHS i u.dt)
    (callSetRHS_sameConfig rt) (fun _ _ => rfl) setRHS_event_congr _ s

/-- The four loops issue the batched call sequence of the non-dynamic phase, then that of the
dynamic phase, and change nothing but buffers. -/
theorem updateAllFields_events (rt : Runtime) (s : evolver) :
    sameConfig s (updateAllFields rt s).1 ∧
    (updateAllFields rt s).2 =
      batchedCalls s.dt (phase s.fields false) ++ batchedCalls s.dt (phase s.fields true) := by
  obtain ⟨c1, e1⟩ := loop_updateTerms_nonDynamic rt s
  generalize hr1 : forEachField (fun f => !f.dynamic) (callUpdateTerms rt)
    (List.range s.fields.length) s = r1 at c1 e1
  obtain ⟨c2, e2⟩ := loop_setRHS_nonDynamic rt r1.1
  generalize hr2 : forEachField (fun f => !f.dynamic) (callSetRHS rt)
    (List.range r1.1.fields.length) r1.1 = r2 at c2 e2
  obtain ⟨c3, e3⟩ := loop_updateTerms_dynamic rt r2.1
  generalize hr3 : forEachField (fun f => f.dynamic) (callUpdateTerms rt)
    (List.range r2.1.fields.length) r2.1 = r3 at c3 e3
  obtain ⟨c4, e4⟩ := loop_setRHS_dynamic rt r3.1
  generalize hr4 : forEachField (fun f => f.dynamic) (callSetRHS rt)
    (List.range r3.1.fields.length) r3.1 = r4 at c4 e4
  have hu : updateAllFields rt s = (r4.1, r1.2 ++ r2.2 ++ r3.2 ++ r4.2) := by
    simp only [updateAllFields, hr1, hr2, hr3, hr4]
  have c12 := sameConfig_trans c1 c2
  have c123 := sameConfig_trans c12 c3
  rw [hu]
  refine ⟨sameConfig_trans c123 c4, ?_⟩
  show r1.2 ++ r2.2 ++ r3.2 ++ r4.2 = _
  rw [e1, e2, e3, e4, phase_congr false c1.1, phase_congr true c12.1, phase_congr true c123.1,
    c1.2.1, c123.2.1]
  simp [batchedCalls]

/-! ## Shape of `writeOut` and `advanceTime` -/

theorem writeRow_isFile (rt : Runtime) (sx : Int) (arr : List float2) (j : Int) (is : List Int)
    (evs : List Event) (h : writeRow rt sx arr j is = some evs) :
    ∀ e ∈ evs, e.isFile = true := by
  induction is generalizing evs with
  | nil =>
    simp only [writeRow, Option.some.injEq] at h
    subst h
    simp
  | cons i is ih =>
    simp only [writeRow] at h
    cases hr : readAt arr (wrapInt32 (wrapInt32 (j * sx) + i)) with
    | none => simp [hr] at h
    | some v =>
      cases hrest : writeRow rt sx arr j is with
      | none => simp [hr, hrest] at h
      | some rest =>
        simp only [hr, hrest, Option.map_some', Option.some.injEq] at h
        subst h
        intro e he
        rcases List.mem_cons.1 he with rfl | he2
        · rfl
        · exact ih rest hrest e he2

theorem writeRows_isFile (rt : Runtime) (sx : Int) (arr : List float2) (js : List Int)
    (evs : List Event) (h : writeRows rt sx arr js = some evs) :
    ∀ e ∈ evs, e.isFile = true := by
  induction js generalizing evs with
  | nil =>
    simp only [writeRows, Option.some.injEq] at h
    subst h
    simp
  | cons j js ih =>
    simp only [writeRows] at h
    cases hr : writeRow rt sx arr j (intRange sx) with
    | none => simp [hr] at h
    | some row =>
      cases hrest : writeRows rt sx arr js with
      | none => simp [hr, hrest] at h
      | some rest =>
        simp only [hr, hrest, Option.map_some', Option.some.injEq] at h
        subst h
        intro e he
        rcases List.mem_append.1 he with he1 | he2
        · exact writeRow_isFile rt sx arr j _ row hr e he1
        · exact ih rest hrest e he2

theorem writeField_isFile (rt : Runtime) (s : evolver) (f : field) (evs : List Event)
    (h : writeField rt s f = Except.ok evs) : ∀ e ∈ evs, e.isFile = true := by
  unfold writeField at h
  by_cases ho : f.outputToFile = true
  · simp only [ho, if_true] at h
    by_cases hop : rt.fopen (fileName f.name s.currentTimeStep) "w+" = true
    · simp only [hop, if_true] at h
      cases hrows : writeRows rt s.sx f.real_array (intRange s.sy) with
      | none => simp [hrows] at h
      | some rows =>
        simp only [hrows, Except.ok.injEq] at h
        subst h
        intro e he
        simp only [List.mem_append, List.mem_cons, List.mem_singleton, List.not_mem_nil,
          or_false] at he
        rcases he with ((rfl | rfl) | he3) | rfl
        · rfl
        · rfl
        · exact writeRows_isFile rt s.sx f.real_array _ rows hrows e he3
        · rfl
    · simp [hop] at h
  · simp only [ho] at h
    simp only [Bool.false_eq_true, if_false, Except.ok.injEq] at h
    subst h
    simp

theorem writeFields_isFile (rt : Runtime) (s : evolver) (fs : List field) (evs : List Event)
    (h : writeFields rt s fs = Except.ok evs) : ∀ e ∈ evs, e.isFile = true := by
  induction fs generalizing evs with
  | nil =>
    simp only [writeFields, Except.ok.injEq] at h
    subst h
    simp
  | cons f fs ih =>
    simp only [writeFields] at h
    cases hf : writeField rt s f with
    | error what => simp [hf] at h
    | ok w =>
      cases hrest : writeFields rt s fs with
      | error what => simp [hf, hrest] at h
      | ok rest =>
        simp only [hf, hrest, Except.ok.injEq] at h
        subst h
        intro e he
        rcases List.mem_append.1 he with he1 | he2
        · exact writeField_isFile rt s f w hf e he1
        · exact ih rest hrest e he2

/-- The body of `writeOut`, stated on the synchronised evolver. -/
theorem writeOut_eq (rt : Runtime) (s : evolver) :
    s.writeOut rt =
      match s.synced.fields[0]? with
      | none => Outcome.fault Fault.vectorIndex
      | some f0 =>
        match f0.real_array[0]? with
        | none => Outcome.fault Fault.bufferIndex
        | some v =>
          if float.ne v.x v.x then
            Outcome.exit (-1) [Event.enter_writeOut s.synced.currentTimeStep,
                               Event.cout "NaN detected, exiting!\n"]
          else
            match writeFields rt s.synced s.synced.fields with
            | Except.error what => Outcome.fault what
            | Except.ok evs =>
              Outcome.ret () s.synced (Event.enter_writeOut s.synced.currentTimeStep :: evs) :=
  rfl

theorem synced_currentTimeStep (s : evolver) : s.synced.currentTimeStep = s.currentTimeStep := by
  unfold evolver.synced evolver.copyAllDataToHost
  split <;> rfl

/-- When `writeOut` returns, it has worked on the synchronised evolver and its events are the
entry mark followed by file operations only. -/
theorem writeOut_ret (rt : Runtime) (s s1 : evolver) (u : Unit) (out1 : List Event)
    (h : s.writeOut rt = Outcome.ret u s1 out1) :
    s1 = s.synced ∧ ∃ evs, out1 = Event.enter_writeOut s.currentTimeStep :: evs ∧
      writeFields rt s.synced s.synced.fields = Except.ok evs ∧
      ∀ e ∈ evs, e.isFile = true := by
  rw [writeOut_eq] at h
  cases hf : s.synced.fields[0]? with
  | none => simp [hf] at h
  | some f0 =>
    simp only [hf] at h
    cases hv : f0.real_array[0]? with
    | none => simp [hv] at h
    | some v =>
      simp only [hv] at h
      by_cases hnan : float.ne v.x v.x = true
      · simp [hnan] at h
      · simp only [hnan, if_false] at h
        cases hw : writeFields rt s.synced s.synced.fields with
        | error what => simp [hw] at h
        | ok evs =>
          simp only [hw, Bool.false_eq_true, if_false, Outcome.ret.injEq] at h
          obtain ⟨_, h2, h3⟩ := h
          refine ⟨h2.symm, evs, ?_, rfl, writeFields_isFile rt _ _ evs hw⟩
          rw [← h3, synced_currentTimeStep]

theorem dynFlags_copyAllDataToHost (s : evolver) :
    dynFlags s.copyAllDataToHost.fields = dynFlags s.fields := by
  simp [dynFlags, evolver.copyAllDataToHost, List.map_map, Function.comp_def]

theorem synced_sameConfig (s : evolver) : sameConfig s s.synced := by
  unfold evolver.synced
  split
  · exact ⟨dynFlags_copyAllDataToHost s, rfl, rfl, rfl, by simp [evolver.copyAllDataToHost]⟩
  · exact sameConfig_refl s

/-- A returning `advanceTime`: the optional `writeOut`, then the four loops, then the counters. -/
theorem advanceTime_ret (rt : Runtime) (s s2 : evolver) (v : Int) (out : List Event)
    (h : s.advanceTime rt = Outcome.ret v s2 out) :
    s.writeEveryNSteps ≠ 0 ∧ v = 0 ∧ ∃ (s1 : evolver) (out1 : List Event),
      ((Int.tmod s.currentTimeStep s.writeEveryNSteps = 0 ∧
          s.writeOut rt = Outcome.ret () s1 out1) ∨
        (Int.tmod s.currentTimeStep s.writeEveryNSteps ≠ 0 ∧ s1 = s ∧ out1 = [])) ∧
      out = out1 ++ (updateAllFields rt s1).2 ++
        overflowMark (updateAllFields rt s1).1.currentTimeStep ∧
      s2 = { (updateAllFields rt s1).1 with
        currentTime := rt.add (updateAllFields rt s1).1.currentTime (updateAllFields rt s1).1.dt,
        currentTimeStep := wrapInt32 ((updateAllFields rt s1).1.currentTimeStep + 1) } := by
  unfold evolver.advanceTime at h
  by_cases hN : s.writeEveryNSteps = 0
  · simp [hN] at h
  · simp only [hN, if_false] at h
    refine ⟨hN, ?_⟩
    by_cases hmin : s.currentTimeStep = -2147483648 ∧ s.writeEveryNSteps = -1
    · simp [hmin] at h
    · simp only [hmin, if_false] at h
      by_cases hm : Int.tmod s.currentTimeStep s.writeEveryNSteps = 0
      · simp only [hm, if_true] at h
        cases hw : s.writeOut rt with
        | fault what => simp [hw] at h
        | exit status o => simp [hw] at h
        | ret u s1 out1 =>
          simp only [hw, Outcome.ret.injEq] at h
          obtain ⟨h1, h2, h3⟩ := h
          exact ⟨h1.symm, s1, out1, Or.inl ⟨hm, rfl⟩, h3.symm, h2.symm⟩
      · simp only [hm, if_false, Outcome.ret.injEq] at h
        obtain ⟨h1, h2, h3⟩ := h
        exact ⟨h1.symm, s, [], Or.inr ⟨hm, rfl, rfl⟩, h3.symm, h2.symm⟩

theorem filter_isCall_overflowMark (c : Int) : (overflowMark c).filter Event.isCall = [] := by
  unfold overflowMark
  split <;> rfl

theorem filter_isCall_of_isFile (evs : List Event) (h : ∀ e ∈ evs, e.isFile = true) :
    evs.filter Event.isCall = [] := by
  rw [List.filter_eq_nil_iff]
  intro e he
  have := h e he
  cases e <;> simp_all [Event.isFile, Event.isCall]

theorem filter_isCall_batchedCalls (dt : float) (ks : List Nat) :
    (batchedCalls dt ks).filter Event.isCall = batchedCalls dt ks := by
  rw [List.filter_eq_self]
  intro e he
  simp only [batchedCalls, List.mem_append, List.mem_map] at he
  rcases he with ⟨k, _, rfl⟩ | ⟨k, _, rfl⟩ <;> rfl

/-- The method calls of one returning `advanceTime`, in the order they are issued. -/
theorem advanceTime_calls (rt : Runtime) (s s2 : evolver) (v : Int) (out : List Event)
    (h : s.advanceTime rt = Outcome.ret v s2 out) :
    out.filter Event.isCall =
      batchedCalls s.dt (phase s.fields false) ++ batchedCalls s.dt (phase s.fields true) := by
  obtain ⟨_, _, s1, out1, hw, hout, _⟩ := advanceTime_ret rt s s2 v out h
  have hs1 : sameConfig s s1 ∧ out1.filter Event.isCall = [] := by
    rcases hw with ⟨_, hw⟩ | ⟨_, rfl, rfl⟩
    · obtain ⟨hs, evs, ho, _, hfile⟩ := writeOut_ret rt s s1 () out1 hw
      refine ⟨hs ▸ synced_sameConfig s, ?_⟩
      rw [ho, List.filter_cons]
      simp only [Event.isCall, Bool.false_eq_true, if_false]
      exact filter_isCall_of_isFile evs hfile
    · exact ⟨sameConfig_refl _, rfl⟩
  obtain ⟨hcfg, hfil⟩ := hs1
  rw [hout, List.filter_append, List.filter_append, hfil, filter_isCall_overflowMark,
    (updateAllFields_events rt s1).2, List.nil_append, List.append_nil,
    List.filter_append, filter_isCall_batchedCalls, filter_isCall_batchedCalls,
    phase_congr false hcfg.1, phase_congr true hcfg.1, hcfg.2.1]

/-! ## Order and multiplicity in the batched sequence -/

theorem order_of_split {α : Type} (A B : List α) (P Q : α → Prop)
    (hA : ∀ e ∈ A, ¬ Q e) (hB : ∀ e ∈ B, ¬ P e) (p q : Nat) (e1 e2 : α)
    (h1 : (A ++ B)[p]? = some e1) (h2 : (A ++ B)[q]? = some e2) (hP : P e1) (hQ : Q e2) :
    p < q := by
  by_contra hle
  have hqp : q ≤ p := by omega
  by_cases hq : q < A.length
  · rw [List.getElem?_append_left hq] at h2
    exact hA e2 (List.getElem?_mem h2) hQ
  · have hp : A.length ≤ p := by omega
    rw [List.getElem?_append_right hp] at h1
    exact hB e1 (List.getElem?_mem h1) hP

theorem mem_phase {fs : List field} {d : Bool} {k : Nat} :
    k ∈ phase fs d ↔ (dynFlags fs)[k]? = some d := by
  unfold phase
  rw [List.mem_filter, List.mem_range]
  constructor
  · intro h
    simpa using h.2
  · intro h
    refine ⟨?_, by simpa using h⟩
    have hlt : k < (dynFlags fs).length := by
      by_contra hge
      rw [List.getElem?_eq_none (by omega)] at h
      exact absurd h (by simp)
    simpa [dynFlags] using hlt

theorem count_phase (fs : List field) (d : Bool) (k : Nat) :
    (phase fs d).count k = if (dynFlags fs)[k]? = some d then 1 else 0 := by
  by_cases h : (dynFlags fs)[k]? = some d
  · have hm : k ∈ phase fs d := mem_phase.2 h
    have hnd : (phase fs d).Nodup := List.Nodup.filter _ (List.nodup_range _)
    rw [if_pos h]
    exact List.count_eq_one_of_mem hnd hm
  · rw [if_neg h]
    exact List.count_eq_zero_of_not_mem (fun hm => h (mem_phase.1 hm))

theorem count_updateTerms_batched (dt : float) (ks : List Nat) (k : Nat) :
    (batchedCalls dt ks).count (Event.updateTerms k) = ks.count k := by
  unfold batchedCalls
  rw [List.count_append]
  have h1 : (ks.map Event.updateTerms).count (Event.updateTerms k) = ks.count k :=
    List.count_map_of_injective ks Event.updateTerms
      (fun a b hab => by injection hab) k
  have h2 : (ks.map (fun j => Event.setRHS j dt)).count (Event.updateTerms k) = 0 := by
    apply List.count_eq_zero_of_not_mem
    simp
  rw [h1, h2]
  rfl

theorem count_setRHS_batched (dt : float) (ks : List Nat) (k : Nat) :
    (batchedCalls dt ks).count (Event.setRHS k dt) = ks.count k := by
  unfold batchedCalls
  rw [List.count_append]
  have h1 : (ks.map (fun j => Event.setRHS j dt)).count (Event.setRHS k dt) = ks.count k :=
    List.count_map_of_injective ks (fun j => Event.setRHS j dt)
      (fun a b hab => by injection hab) k
  have h2 : (ks.map Event.updateTerms).count (Event.setRHS k dt) = 0 := by
    apply List.count_eq_zero_of_not_mem
    simp
  rw [h1, h2]
  simp

theorem mem_batchedCalls {dt : float} {ks : List Nat} {e : Event} :
    e ∈ batchedCalls dt ks ↔ ∃ k ∈ ks, e = Event.updateTerms k ∨ e = Event.setRHS k dt := by
  unfold batchedCalls
  simp only [List.mem_append, List.mem_map]
  constructor
  · rintro (⟨k, hk, rfl⟩ | ⟨k, hk, rfl⟩)
    · exact ⟨k, hk, Or.inl rfl⟩
    · exact ⟨k, hk, Or.inr rfl⟩
  · rintro ⟨k, hk, rfl | rfl⟩
    · exact Or.inl ⟨k, hk, rfl⟩
    · exact Or.inr ⟨k, hk, rfl⟩

theorem dynFlags_getElem? (fs : List field) (k : Nat) :
    (dynFlags fs)[k]? = (fs[k]?).map (fun f => f.dynamic) := by
  simp [dynFlags]

/-! ## C4: the non-dynamic phase comes first -/

/-- A call of `advanceTime` that ends the process does so in `writeOut`, before any field method
call. -/
theorem advanceTime_exit_calls (rt : Runtime) (s : evolver) (status : Int) (out : List Event)
    (h : s.advanceTime rt = Outcome.exit status out) : out.filter Event.isCall = [] := by
  unfold evolver.advanceTime at h
  by_cases hN : s.writeEveryNSteps = 0
  · simp [hN] at h
  · simp only [hN, if_false] at h
    by_cases hmin : s.currentTimeStep = -2147483648 ∧ s.writeEveryNSteps = -1
    · simp [hmin] at h
    · simp only [hmin, if_false] at h
      by_cases hm : Int.tmod s.currentTimeStep s.writeEveryNSteps = 0
      · simp only [hm, if_true] at h
        cases hw : s.writeOut rt with
        | fault what => simp [hw] at h
        | ret u s1 out1 => simp [hw] at h
        | exit st o =>
          simp only [hw, Outcome.exit.injEq] at h
          obtain ⟨_, rfl⟩ := h
          rw [writeOut_eq] at hw
          cases hf : s.synced.fields[0]? with
          | none => simp [hf] at hw
          | some f0 =>
            simp only [hf] at hw
            cases hv : f0.real_array[0]? with
            | none => simp [hv] at hw
            | some v =>
              simp only [hv] at hw
              by_cases hnan : float.ne v.x v.x = true
              · simp only [hnan, if_true, Outcome.exit.injEq] at hw
                obtain ⟨_, rfl⟩ := hw
                rfl
              · simp only [hnan, Bool.false_eq_true, if_false] at hw
                cases hwf : writeFields rt s.synced s.synced.fields <;> simp [hwf] at hw
      · simp [hm] at h

/-- C4. In the sequence of `updateTerms` and `setRHS` calls issued by one `advanceTime` that
returns: every call is made on a registered field, `setRHS` with the evolver's `dt`; every call
on a non-dynamic field comes before every call on a dynamic field; every field receives exactly
one `updateTerms` and exactly one `setRHS(dt)`; and the `updateTerms` of a field comes before its
`setRHS`.  (An `advanceTime` that ends the process in `writeOut` issues no such call.) -/
theorem advanceTime_static_before_dynamic (rt : Runtime) (s : evolver) :
    (∀ (status : Int) (out : List Event), s.advanceTime rt = Outcome.exit status out →
      out.filter Event.isCall = []) ∧
    ∀ (v : Int) (s2 : evolver) (out : List Event), s.advanceTime rt = Outcome.ret v s2 out →
    (∀ e ∈ out.filter Event.isCall, ∃ k : Nat, k < s.fields.length ∧
      (e = Event.updateTerms k ∨ e = Event.setRHS k s.dt)) ∧
    (∀ (p q : Nat) (e1 e2 : Event) (k1 k2 : Nat) (f1 f2 : field),
      (out.filter Event.isCall)[p]? = some e1 → (out.filter Event.isCall)[q]? = some e2 →
      e1.target = some k1 → e2.target = some k2 →
      s.fields[k1]? = some f1 → s.fields[k2]? = some f2 →
      f1.dynamic = false → f2.dynamic = true → p < q) ∧
    (∀ k : Nat, k < s.fields.length →
      (out.filter Event.isCall).count (Event.updateTerms k) = 1 ∧
      (out.filter Event.isCall).count (Event.setRHS k s.dt) = 1) ∧
    (∀ (k p q : Nat) (dt2 : float),
      (out.filter Event.isCall)[p]? = some (Event.updateTerms k) →
      (out.filter Event.isCall)[q]? = some (Event.setRHS k dt2) → p < q) := by
  refine ⟨advanceTime_exit_calls rt s, ?_⟩
  intro v s2 out h
  have hcalls := advanceTime_calls rt s s2 v out h
  rw [hcalls]
  have hflag : ∀ {d : Bool} {k : Nat}, k ∈ phase s.fields d →
      ∃ f, s.fields[k]? = some f ∧ f.dynamic = d := by
    intro d k hk
    have := mem_phase.1 hk
    rw [dynFlags_getElem?] at this
    cases hf : s.fields[k]? with
    | none => simp [hf] at this
    | some f =>
      refine ⟨f, rfl, ?_⟩
      simpa [hf] using this
  have hexcl : ∀ {k : Nat}, k ∈ phase s.fields false → k ∈ phase s.fields true → False := by
    intro k h1 h2
    have a := mem_phase.1 h1
    have b := mem_phase.1 h2
    rw [a] at b
    exact absurd b (by simp)
  refine ⟨?_, ?_, ?_, ?_⟩
  · intro e he
    rcases List.mem_append.1 he with he | he
    all_goals
      obtain ⟨k, hk, hor⟩ := mem_batchedCalls.1 he
      obtain ⟨f, hf, _⟩ := hflag hk
      refine ⟨k, ?_, hor⟩
      by_contra hge
      rw [List.getElem?_eq_none (by omega)] at hf
      exact absurd hf (by simp)
  · intro p q e1 e2 k1 k2 f1 f2 h1 h2 t1 t2 g1 g2 d1 d2
    refine order_of_split _ _
      (fun e => ∃ k f, e.target = some k ∧ s.fields[k]? = some f ∧ f.dynamic = false)
      (fun e => ∃ k f, e.target = some k ∧ s.fields[k]? = some f ∧ f.dynamic = true)
      ?_ ?_ p q e1 e2 h1 h2 ⟨k1, f1, t1, g1, d1⟩ ⟨k2, f2, t2, g2, d2⟩
    · rintro e he ⟨k, f, ht, hf, hd⟩
      obtain ⟨j, hj, hor⟩ := mem_batchedCalls.1 he
      obtain ⟨g, hg, hgd⟩ := hflag hj
      have hjk : j = k := by
        rcases hor with rfl | rfl <;> simpa [Event.target] using ht
      subst hjk
      rw [hf] at hg
      have : f = g := by simpa using hg
      subst this
      rw [hd] at hgd
      exact absurd hgd (by simp)
    · rintro e he ⟨k, f, ht, hf, hd⟩
      obtain ⟨j, hj, hor⟩ := mem_batchedCalls.1 he
      obtain ⟨g, hg, hgd⟩ := hflag hj
      have hjk : j = k := by
        rcases hor with rfl | rfl <;> simpa [Event.target] using ht
      subst hjk
      rw [hf] at hg
      have : f = g := by simpa using hg
      subst this
      rw [hd] at hgd
      exact absurd hgd (by simp)
  · intro k hk
    have hsome : ∃ b, (dynFlags s.fields)[k]? = some b := by
      rw [dynFlags_getElem?, List.getElem?_eq_getElem hk]
      exact ⟨_, rfl⟩
    obtain ⟨b, hb⟩ := hsome
    rw [List.count_append, List.count_append, count_updateTerms_batched,
      count_updateTerms_batched, count_setRHS_batched, count_setRHS_batched, count_phase,
      count_phase, hb]
    cases b <;> simp
  · intro k p q dt2 h1 h2
    have hmem : Event.updateTerms k ∈ batchedCalls s.dt (phase s.fields false) ++
        batchedCalls s.dt (phase s.fields true) := List.getElem?_mem h1
    have hk : k ∈ phase s.fields false ∨ k ∈ phase s.fields true := by
      rcases List.mem_append.1 hmem with he | he
      · obtain ⟨j, hj, hor⟩ := mem_batchedCalls.1 he
        rcases hor with hor | hor
        · injection hor with hjk
          exact Or.inl (hjk ▸ hj)
        · exact absurd hor (by simp)
      · obtain ⟨j, hj, hor⟩ := mem_batchedCalls.1 he
        rcases hor with hor | hor
        · injection hor with hjk
          exact Or.inr (hjk ▸ hj)
        · exact absurd hor (by simp)
    rcases hk with hk | hk
    · have hsplit : batchedCalls s.dt (phase s.fields false) ++
          batchedCalls s.dt (phase s.fields true) =
          (phase s.fields false).map Event.updateTerms ++
            ((phase s.fields false).map (fun j => Event.setRHS j s.dt) ++
              batchedCalls s.dt (phase s.fields true)) := by
        simp [batchedCalls]
      rw [hsplit] at h1 h2
      refine order_of_split _ _ (fun e => e = Event.updateTerms k)
        (fun e => e = Event.setRHS k dt2) ?_ ?_ p q _ _ h1 h2 rfl rfl
      · intro e he heq
        subst heq
        simp at he
      · intro e he heq
        subst heq
        rcases List.mem_append.1 he with he | he
        · simp at he
        · obtain ⟨j, hj, hor⟩ := mem_batchedCalls.1 he
          rcases hor with hor | hor
          · injection hor with hjk
            exact hexcl hk (hjk ▸ hj)
          · exact absurd hor (by simp)
    · have hsplit : batchedCalls s.dt (phase s.fields false) ++
          batchedCalls s.dt (phase s.fields true) =
          (batchedCalls s.dt (phase s.fields false) ++
            (phase s.fields true).map Event.updateTerms) ++
              (phase s.fields true).map (fun j => Event.setRHS j s.dt) := by
        simp [batchedCalls]
      rw [hsplit] at h1 h2
      refine order_of_split _ _ (fun e => e = Event.updateTerms k)
        (fun e => e = Event.setRHS k dt2) ?_ ?_ p q _ _ h1 h2 rfl rfl
      · intro e he heq
        subst heq
        rcases List.mem_append.1 he with he | he
        · obtain ⟨j, hj, hor⟩ := mem_batchedCalls.1 he
          rcases hor with hor | hor
          · exact absurd hor (by simp)
          · injection hor with hjk _
            exact hexcl (hjk ▸ hj) hk
        · simp at he
      · intro e he heq
        subst heq
        simp at he

/-- Witness for C4: one step of the evolver with the dynamic `"u"` and the non-dynamic `"v"`. -/
theorem advanceTime_static_before_dynamic_witness :
    ∃ (s2 : evolver) (out : List Event),
      twoFields.advanceTime rtId = Outcome.ret 0 s2 out ∧
      (out.filter Event.isCall).count (Event.updateTerms 0) = 1 ∧
      (out.filter Event.isCall).count (Event.setRHS 0 twoFields.dt) = 1 :=
  ⟨_, _, rfl,
    ((advanceTime_static_before_dynamic rtId twoFields).2 0 _ _ rfl).2.2.1 0 (by decide)⟩

/-! ## C5: the order inside a phase -/

/-- C5, as stated, fails: with the two non-dynamic fields `"a"` and `"b"` the calls of one step
are `updateTerms(a), updateTerms(b), setRHS(a), setRHS(b)`, not the interleaved sequence. -/
theorem advanceTime_calls_not_interleaved :
    ∃ (s2 : evolver) (out : List Event),
      twoStatic.advanceTime rtId = Outcome.ret 0 s2 out ∧
      out.filter Event.isCall =
        [Event.updateTerms 0, Event.updateTerms 1,
         Event.setRHS 0 twoStatic.dt, Event.setRHS 1 twoStatic.dt] ∧
      out.filter Event.isCall ≠
        spec_interleavedCalls twoStatic.dt (phase twoStatic.fields false) ++
          spec_interleavedCalls twoStatic.dt (phase twoStatic.fields true) :=
  ⟨_, _, rfl, by decide, by decide⟩

/-- C5, amended. The calls of one (returning) `advanceTime` are, for the non-dynamic fields in
insertion order and then for the dynamic fields in insertion order, first the `updateTerms` of
every field of the phase and then the `setRHS(dt)` of every field of the phase; this is the
field-by-field sequence exactly when the phase has at most one field. -/
theorem advanceTime_calls_batched_per_phase (rt : Runtime) (s s2 : evolver) (v : Int)
    (out : List Event) (h : s.advanceTime rt = Outcome.ret v s2 out) :
    out.filter Event.isCall =
      ((phase s.fields false).map Event.updateTerms ++
        (phase s.fields false).map (fun k => Event.setRHS k s.dt)) ++
      ((phase s.fields true).map Event.updateTerms ++
        (phase s.fields true).map (fun k => Event.setRHS k s.dt)) ∧
    (∀ d : Bool, (phase s.fields d).length ≤ 1 →
      (phase s.fields d).map Event.updateTerms ++
        (phase s.fields d).map (fun k => Event.setRHS k s.dt) =
      spec_interleavedCalls s.dt (phase s.fields d)) ∧
    (∀ d : Bool, 2 ≤ (phase s.fields d).length →
      (phase s.fields d).map Event.updateTerms ++
        (phase s.fields d).map (fun k => Event.setRHS k s.dt) ≠
      spec_interleavedCalls s.dt (phase s.fields d)) := by
  refine ⟨advanceTime_calls rt s s2 v out h, ?_, ?_⟩
  · intro d hd
    match hks : phase s.fields d, hd with
    | [], _ => rfl
    | [k], _ => rfl
    | _ :: _ :: _, hd => simp at hd
  · intro d hd
    match hks : phase s.fields d, hd with
    | [], hd => simp at hd
    | [k], hd => simp at hd
    | a :: b :: rest, _ =>
      simp [spec_interleavedCalls]

/-- Witness for C5 (amended): one step of the evolver with the two non-dynamic fields. -/
theorem advanceTime_calls_batched_per_phase_witness :
    ∃ (s2 : evolver) (out : List Event),
      twoStatic.advanceTime rtId = Outcome.ret 0 s2 out ∧
      out.filter Event.isCall =
        ((phase twoStatic.fields false).map Event.updateTerms ++
          (phase twoStatic.fields false).map (fun k => Event.setRHS k twoStatic.dt)) ++
        ((phase twoStatic.fields true).map Event.updateTerms ++
          (phase twoStatic.fields true).map (fun k => Event.setRHS k twoStatic.dt)) :=
  ⟨_, _, rfl, (advanceTime_calls_batched_per_phase rtId twoStatic _ 0 _ rfl).1⟩

/-! ## C8: the NaN check of `writeOut` -/

/-- The test `c1 != c1` holds exactly of a NaN. -/
theorem float_ne_self (c : float) : float.ne c c = c.isNaN := by
  unfold float.ne float.eq
  cases c.isNaN <;> simp

/-- C8. With a first field that has a first sample, `writeOut` ends the process exactly when the
real part of that sample is a NaN; it then exits with status -1 (non-zero) after the entry mark
and the message only, so before any file is opened or written.  Nothing else is inspected: the
other samples and the other fields do not matter.  The sample is read after the device-to-host
copy when `with_cuda` is set, and is the evolver's own otherwise. -/
theorem writeOut_exits_iff_first_sample_nan (rt : Runtime) (s : evolver) (f0 : field)
    (v : float2) (hf : s.synced.fields[0]? = some f0) (hv : f0.real_array[0]? = some v) :
    ((∃ (status : Int) (out : List Event), s.writeOut rt = Outcome.exit status out) ↔
      v.x.isNaN = true) ∧
    (v.x.isNaN = true →
      s.writeOut rt = Outcome.exit (-1)
        [Event.enter_writeOut s.currentTimeStep, Event.cout "NaN detected, exiting!\n"]) ∧
    (∀ (status : Int) (out : List Event), s.writeOut rt = Outcome.exit status out →
      status = -1 ∧ status ≠ 0 ∧ ∀ e ∈ out, e.isFile = false) ∧
    (s.with_cuda = false → s.synced = s) := by
  have hexit : v.x.isNaN = true →
      s.writeOut rt = Outcome.exit (-1)
        [Event.enter_writeOut s.currentTimeStep, Event.cout "NaN detected, exiting!\n"] := by
    intro hn
    rw [writeOut_eq]
    simp only [hf, hv, float_ne_self, hn, if_true, synced_currentTimeStep]
  have hnoexit : v.x.isNaN = false →
      ∀ (status : Int) (out : List Event), s.writeOut rt ≠ Outcome.exit status out := by
    intro hn status out
    rw [writeOut_eq]
    simp only [hf, hv, float_ne_self, hn, Bool.false_eq_true, if_false]
    cases writeFields rt s.synced s.synced.fields <;> simp
  refine ⟨⟨?_, fun hn => ⟨_, _, hexit hn⟩⟩, hexit, ?_, ?_⟩
  · rintro ⟨status, out, hex⟩
    cases hn : v.x.isNaN with
    | true => rfl
    | false => exact absurd hex (hnoexit hn status out)
  · intro status out hex
    cases hn : v.x.isNaN with
    | false => exact absurd hex (hnoexit hn status out)
    | true =>
      rw [hexit hn] at hex
      simp only [Outcome.exit.injEq] at hex
      obtain ⟨h1, h2⟩ := hex
      subst h1 h2
      refine ⟨rfl, by decide, ?_⟩
      intro e he
      simp only [List.mem_cons, List.mem_singleton, List.not_mem_nil, or_false] at he
      rcases he with rfl | rfl <;> rfl
  · intro hc
    simp [evolver.synced, hc]

/-- Witness for C8: a NaN in the first sample ends the process, a NaN in the second one only
does not. -/
theorem writeOut_exits_iff_first_sample_nan_witness :
    nanFirst.writeOut rtId = Outcome.exit (-1)
      [Event.enter_writeOut 0, Event.cout "NaN detected, exiting!\n"] ∧
    ¬ (∃ (status : Int) (out : List Event), nanSecond.writeOut rtId = Outcome.exit status out) :=
  ⟨(writeOut_exits_iff_first_sample_nan rtId nanFirst _ ⟨quietNaN, ⟨0⟩⟩ rfl rfl).2.1 (by decide),
   fun h => absurd
     ((writeOut_exits_iff_first_sample_nan rtId nanSecond _ ⟨⟨0⟩, ⟨0⟩⟩ rfl rfl).1.1 h)
     (by decide)⟩

/-! ## C9: the launch configuration -/

theorem wrapInt32_of_fits (x : Int) (h1 : -2147483648 ≤ x) (h2 : x ≤ 2147483647) :
    wrapInt32 x = x := by
  unfold wrapInt32
  omega

theorem toUInt32_of_nonneg (x : Int) (h1 : 0 ≤ x) (h2 : x ≤ 4294967295) :
    toUInt32 x = x.toNat := by
  unfold toUInt32
  congr 1
  omega

/-- The block count computed for one axis of in-range size. -/
theorem blocks_axis (n : Int) (h1 : 1 ≤ n) (h2 : n ≤ 2147483616) :
    ((toUInt32 (Int.tdiv (wrapInt32 (n + 31)) 32) : Nat) : Int) = (n + 31) / 32 ∧
    32 * ((toUInt32 (Int.tdiv (wrapInt32 (n + 31)) 32) : Nat) : Int) ≥ n ∧
    n > 32 * (((toUInt32 (Int.tdiv (wrapInt32 (n + 31)) 32) : Nat) : Int) - 1) := by
  rw [wrapInt32_of_fits (n + 31) (by omega) (by omega),
    Int.tdiv_eq_ediv (by omega) (by omega),
    toUInt32_of_nonneg ((n + 31) / 32) (by omega) (by omega),
    Int.toNat_of_nonneg (by omega)]
  omega

/-- C9, as stated, fails: for `sx = 2147483647`, `sy = 2` the sum `sx + 31` leaves the range of
`int`, and the block count for x is `4227858433`, not `ceil(sx/32) = 67108864`. -/
theorem ctor_blocks_overflow :
    (evolver.ctor rtId true 2147483647 2 ⟨0⟩ ⟨0⟩ ⟨0⟩ 1).1.blocks = ⟨4227858433, 1, 1⟩ ∧
    ¬ (32 * (((evolver.ctor rtId true 2147483647 2 ⟨0⟩ ⟨0⟩ ⟨0⟩ 1).1.blocks.x : Nat) : Int)
          ≥ 2147483647 ∧
       (2147483647 : Int) >
          32 * ((((evolver.ctor rtId true 2147483647 2 ⟨0⟩ ⟨0⟩ ⟨0⟩ 1).1.blocks.x : Nat) : Int)
            - 1)) := by
  decide

/-- C9, amended. For `1 <= sx, sy <= 2147483616` (so that `sx + 31` and `sy + 31` are `int`s) and
`sy != 1`, the constructor sets `threads_per_block` to 32 x 32 and `blocks` to `(bx, by)` with
`bx = ceil(sx/32)`, `by = ceil(sy/32)`, that is `32*bx >= sx > 32*(bx-1)` and
`32*by >= sy > 32*(by-1)`.  For `sy == 1` and any `int` `sx >= 1`, `blocks` is 1 and
`threads_per_block` is `sx`.  `createField` copies the evolver's configuration to the field it
creates. -/
theorem ctor_launch_configuration (rt : Runtime) (_with_cuda : Bool) (_sx _sy : Int)
    (_dx _dy _dt : float) (_ses : Int) :
    (1 ≤ _sx → _sx ≤ 2147483616 → 1 ≤ _sy → _sy ≤ 2147483616 → _sy ≠ 1 →
      (evolver.ctor rt _with_cuda _sx _sy _dx _dy _dt _ses).1.threads_per_block = ⟨32, 32, 1⟩ ∧
      ∃ bx by_ : Nat,
        (evolver.ctor rt _with_cuda _sx _sy _dx _dy _dt _ses).1.blocks = ⟨bx, by_, 1⟩ ∧
        (bx : Int) = ⌈(_sx : ℚ) / 32⌉ ∧ (by_ : Int) = ⌈(_sy : ℚ) / 32⌉ ∧
        32 * (bx : Int) ≥ _sx ∧ _sx > 32 * ((bx : Int) - 1) ∧
        32 * (by_ : Int) ≥ _sy ∧ _sy > 32 * ((by_ : Int) - 1)) ∧
    (1 ≤ _sx → _sx ≤ 2147483647 → _sy = 1 →
      (evolver.ctor rt _with_cuda _sx _sy _dx _dy _dt _ses).1.blocks = ⟨1, 1, 1⟩ ∧
      (evolver.ctor rt _with_cuda _sx _sy _dx _dy _dt _ses).1.threads_per_block =
        ⟨_sx.toNat, 1, 1⟩) ∧
    (∀ (s : evolver) (name : String) (dynamic : Bool), (¬ ∃ f ∈ s.fields, f.name = name) →
      ∃ newField : field,
        (s.createField rt name dynamic).2.1.fields = s.fields ++ [newField] ∧
        newField.blocks = s.blocks ∧ newField.threads_per_block = s.threads_per_block) := by
  refine ⟨?_, ?_, ?_⟩
  · intro hx1 hx2 hy1 hy2 hy
    obtain ⟨ex, ax, bx⟩ := blocks_axis _sx hx1 hx2
    obtain ⟨ey, ay, by_⟩ := blocks_axis _sy hy1 hy2
    have hceil : ∀ (n : Int) (b : Int), 32 * b ≥ n → n > 32 * (b - 1) →
        b = ⌈(n : ℚ) / 32⌉ := by
      intro n b hb1 hb2
      symm
      rw [Int.ceil_eq_iff]
      constructor
      · rw [lt_div_iff₀ (by norm_num)]
        have : ((32 * (b - 1) : Int) : ℚ) < (n : ℚ) := by exact_mod_cast hb2
        push_cast at this
        linarith
      · rw [div_le_iff₀ (by norm_num)]
        have : ((n : Int) : ℚ) ≤ ((32 * b : Int) : ℚ) := by exact_mod_cast hb1
        push_cast at this
        linarith
    refine ⟨by simp [evolver.ctor, hy, dim3.of2, toUInt32], _, _, ?_, hceil _ _ ax bx,
      hceil _ _ ay by_, ax, bx, ay, by_⟩
    simp [evolver.ctor, hy, dim3.of2]
  · intro hx1 hx2 hy
    subst hy
    refine ⟨by simp [evolver.ctor, dim3.of1, toUInt32], ?_⟩
    simp only [evolver.ctor, if_true, dim3.of1]
    rw [toUInt32_of_nonneg _sx (by omega) (by omega)]
  · intro s name dynamic hfresh
    have hb : nameExists name s.fields = false := by
      cases hx : nameExists name s.fields with
      | false => rfl
      | true => exact absurd ((nameExists_iff name s.fields).1 hx) hfresh
    exact ⟨createdField rt s name dynamic, (createField_of_fresh rt s name dynamic hb).2.1,
      rfl, rfl⟩

/-- Witness for C9 (amended): a 33 x 64 grid gets 2 x 2 blocks of 32 x 32 threads. -/
theorem ctor_launch_configuration_witness :
    (evolver.ctor rtId true 33 64 ⟨0⟩ ⟨0⟩ ⟨0⟩ 1).1.threads_per_block = ⟨32, 32, 1⟩ ∧
    ∃ bx by_ : Nat,
      (evolver.ctor rtId true 33 64 ⟨0⟩ ⟨0⟩ ⟨0⟩ 1).1.blocks = ⟨bx, by_, 1⟩ ∧
      (bx : Int) = ⌈((33 : Int) : ℚ) / 32⌉ ∧ (by_ : Int) = ⌈((64 : Int) : ℚ) / 32⌉ ∧
      32 * (bx : Int) ≥ 33 ∧ (33 : Int) > 32 * ((bx : Int) - 1) ∧
      32 * (by_ : Int) ≥ 64 ∧ (64 : Int) > 32 * ((by_ : Int) - 1) :=
  (ctor_launch_configuration rtId true 33 64 ⟨0⟩ ⟨0⟩ ⟨0⟩ 1).1 (by decide) (by decide) (by decide)
    (by decide) (by decide)

/-! ## The loops of `writeOut` over the grid -/

theorem mem_intRange (n i : Int) : i ∈ intRange n ↔ 0 ≤ i ∧ i < n := by
  unfold intRange
  simp only [List.mem_map, List.mem_range]
  constructor
  · rintro ⟨k, hk, rfl⟩
    constructor
    · exact Int.ofNat_nonneg k
    · show (k : Int) < n
      omega
  · rintro ⟨h0, hn⟩
    refine ⟨i.toNat, by omega, ?_⟩
    show ((i.toNat : Nat) : Int) = i
    omega

/-- On a grid whose size fits in an `int`, the index computed by `writeOut` is `j*sx + i` and
lies inside the buffer. -/
theorem index_fits (sx sy i j : Int) (hfit : sx * sy ≤ 2147483647)
    (hi0 : 0 ≤ i) (hi : i < sx) (hj0 : 0 ≤ j) (hj : j < sy) :
    wrapInt32 (wrapInt32 (j * sx) + i) = j * sx + i ∧ 0 ≤ j * sx + i ∧ j * sx + i < sx * sy := by
  have h1 : 0 ≤ j * sx := Int.mul_nonneg hj0 (by omega)
  have h2 : j * sx + sx ≤ sx * sy := by nlinarith
  rw [wrapInt32_of_fits (j * sx) (by omega) (by omega),
    wrapInt32_of_fits (j * sx + i) (by omega) (by omega)]
  exact ⟨rfl, by omega, by omega⟩

theorem writeRow_map (rt : Runtime) (sx : Int) (arr : List float2) (j : Nat) (ks : List Nat)
    (hread : ∀ i ∈ ks, readAt arr (wrapInt32 (wrapInt32 ((j : Int) * sx) + (i : Int))) =
      some (sampleAt arr (j * sx.toNat + i))) :
    writeRow rt sx arr (j : Int) (ks.map Int.ofNat) =
      some (ks.map (fun (i : Nat) => Event.fprintf
        (dataLine rt (i : Int) (j : Int) (sampleAt arr (j * sx.toNat + i))))) := by
  induction ks with
  | nil => rfl
  | cons k ks ih =>
    have hk := hread k (by simp)
    simp only [List.map_cons, writeRow]
    rw [show (Int.ofNat k) = (k : Int) from rfl, hk,
      ih (fun i hi => hread i (by simp [hi]))]
    rfl

theorem writeRows_map (rt : Runtime) (sx : Int) (arr : List float2) (js : List Nat)
    (hread : ∀ j ∈ js, ∀ i ∈ List.range sx.toNat,
      readAt arr (wrapInt32 (wrapInt32 ((j : Int) * sx) + (i : Int))) =
        some (sampleAt arr (j * sx.toNat + i))) :
    writeRows rt sx arr (js.map Int.ofNat) =
      some ((js.map (fun (j : Nat) => (List.range sx.toNat).map (fun (i : Nat) => Event.fprintf
        (dataLine rt (i : Int) (j : Int) (sampleAt arr (j * sx.toNat + i)))))).flatten) := by
  induction js with
  | nil => rfl
  | cons j js ih =>
    simp only [List.map_cons, writeRows]
    rw [show (Int.ofNat j) = (j : Int) from rfl]
    have hrow := writeRow_map rt sx arr j (List.range sx.toNat) (hread j (by simp))
    rw [show intRange sx = (List.range sx.toNat).map Int.ofNat from rfl, hrow,
      ih (fun j2 hj2 => hread j2 (by simp [hj2]))]
    rfl

/-- With a grid that fits in an `int` and a buffer of one sample per grid point, the two loops
of `writeOut` produce the data lines of the specification. -/
theorem writeRows_eq_spec (rt : Runtime) (sx sy : Int) (arr : List float2)
    (hfit : sx * sy ≤ 2147483647) (hlen : arr.length = (sx * sy).toNat) :
    writeRows rt sx arr (intRange sy) = some (spec_dataLines rt sx sy arr) := by
  apply writeRows_map rt sx arr (List.range sy.toNat)
  intro j hj i hi
  rw [List.mem_range] at hj hi
  obtain ⟨e, h0, hlt⟩ := index_fits sx sy i j hfit (by omega) (by omega) (by omega) (by omega)
  rw [e]
  have hidx : ((j : Int) * sx + (i : Int)).toNat = j * sx.toNat + i := by
    have hsx : ((sx.toNat : Nat) : Int) = sx := Int.toNat_of_nonneg (by omega)
    have : ((j * sx.toNat + i : Nat) : Int) = (j : Int) * sx + (i : Int) := by
      push_cast
      rw [hsx]
    omega
  have hin : j * sx.toNat + i < arr.length := by
    rw [hlen, ← hidx]
    omega
  unfold readAt sampleAt
  rw [if_neg (by omega), hidx, List.getElem?_eq_getElem hin]
  rfl

/-- A row-major list of `m` rows of `n` entries: its length and its entry at `j*n + i`. -/
theorem grid_flatten {α : Type} (F : Nat → Nat → α) (n m : Nat) :
    (((List.range m).map (fun j => (List.range n).map (F j))).flatten).length = m * n ∧
    ∀ j i : Nat, j < m → i < n →
      (((List.range m).map (fun j => (List.range n).map (F j))).flatten)[j * n + i]? =
        some (F j i) := by
  induction m with
  | zero => exact ⟨by simp, fun j i hj _ => absurd hj (by omega)⟩
  | succ m ih =>
    obtain ⟨ihl, ihg⟩ := ih
    have hstep : ((List.range (m + 1)).map (fun j => (List.range n).map (F j))).flatten =
        ((List.range m).map (fun j => (List.range n).map (F j))).flatten ++
          (List.range n).map (F m) := by
      rw [List.range_succ, List.map_append, List.flatten_append]
      simp
    rw [hstep]
    refine ⟨by rw [List.length_append, ihl, List.length_map, List.length_range, Nat.succ_mul], ?_⟩
    intro j i hj hi
    by_cases hjm : j < m
    · have hlt : j * n + i < m * n := by
        have : (j + 1) * n ≤ m * n := Nat.mul_le_mul_right n hjm
        rw [Nat.succ_mul] at this
        omega
      rw [List.getElem?_append_left (by rw [ihl]; exact hlt)]
      exact ihg j i hjm hi
    · have hjeq : j = m := by omega
      subst hjeq
      rw [List.getElem?_append_right (by rw [ihl]; omega), ihl]
      have : j * n + i - j * n = i := by omega
      rw [this, List.getElem?_map, List.getElem?_range hi]
      rfl

/-! ## Failure of the loops -/

theorem writeRow_none (rt : Runtime) (sx : Int) (arr : List float2) (j : Int) (is : List Int)
    (h : ∃ i ∈ is, readAt arr (wrapInt32 (wrapInt32 (j * sx) + i)) = none) :
    writeRow rt sx arr j is = none := by
  induction is with
  | nil => simp at h
  | cons i0 is ih =>
    simp only [writeRow]
    cases hr : readAt arr (wrapInt32 (wrapInt32 (j * sx) + i0)) with
    | none => rfl
    | some v =>
      have h2 : ∃ i ∈ is, readAt arr (wrapInt32 (wrapInt32 (j * sx) + i)) = none := by
        obtain ⟨i, hi, hn⟩ := h
        rcases List.mem_cons.1 hi with rfl | hi2
        · rw [hr] at hn
          exact absurd hn (by simp)
        · exact ⟨i, hi2, hn⟩
      rw [ih h2]
      rfl

theorem writeRows_none (rt : Runtime) (sx : Int) (arr : List float2) (js : List Int)
    (h : ∃ j ∈ js, writeRow rt sx arr j (intRange sx) = none) :
    writeRows rt sx arr js = none := by
  induction js with
  | nil => simp at h
  | cons j0 js ih =>
    simp only [writeRows]
    cases hr : writeRow rt sx arr j0 (intRange sx) with
    | none => rfl
    | some row =>
      have h2 : ∃ j ∈ js, writeRow rt sx arr j (intRange sx) = none := by
        obtain ⟨j, hj, hn⟩ := h
        rcases List.mem_cons.1 hj with rfl | hj2
        · rw [hr] at hn
          exact absurd hn (by simp)
        · exact ⟨j, hj2, hn⟩
      rw [ih h2]
      rfl

theorem writeFields_cons_error (rt : Runtime) (s : evolver) (f : field) (fs : List field)
    (what : Fault) (h : writeField rt s f = Except.error what) :
    writeFields rt s (f :: fs) = Except.error what := by
  simp only [writeFields, h]

/-- When `fopen` returns `NULL` for a field written to file, the loop body of `writeOut` is
undefined behaviour: `fprintf` is called on the `NULL` file. -/
theorem writeField_nullFile (rt : Runtime) (s : evolver) (f : field)
    (hf : f.outputToFile = true)
    (hop : rt.fopen (fileName f.name s.currentTimeStep) "w+" = false) :
    writeField rt s f = Except.error Fault.nullFile := by
  unfold writeField
  rw [if_pos hf, hop]
  rfl

/-- On the `2147483647 x 2` grid the index of the grid point `(1, 1)` wraps to `-2147483648`, so
the loops of `writeOut` leave the buffer whatever its size. -/
theorem writeField_hugeGrid (f : field) (hf : f.outputToFile = true) :
    writeField rtId hugeGrid f = Except.error Fault.bufferIndex := by
  have hsx : hugeGrid.sx = 2147483647 := rfl
  have hsy : hugeGrid.sy = 2 := rfl
  have hop : rtId.fopen (fileName f.name hugeGrid.currentTimeStep) "w+" = true := rfl
  unfold writeField
  rw [if_pos hf, if_pos hop, hsx, hsy]
  have hrow : writeRow rtId 2147483647 f.real_array 1 (intRange 2147483647) = none := by
    apply writeRow_none
    refine ⟨1, (mem_intRange _ _).2 (by decide), ?_⟩
    have : wrapInt32 (wrapInt32 (1 * 2147483647) + 1) = -2147483648 := by decide
    rw [this]
    rfl
  rw [writeRows_none rtId 2147483647 f.real_array (intRange 2)
    ⟨1, (mem_intRange _ _).2 (by decide), hrow⟩]

/-! ## C7: the layout of an output file -/

theorem byteCount_of_fits (sx sy : Int) (h0 : 0 ≤ sx * sy) (hfit : sx * sy ≤ 2147483647) :
    byteCount sx sy / sizeof_float2 = (sx * sy).toNat := by
  unfold byteCount sizeof_float2 toSizeT
  rw [wrapInt32_of_fits (sx * sy) (by omega) (by omega)]
  generalize sx * sy = x at h0 hfit
  omega

theorem synced_sx (s : evolver) : s.synced.sx = s.sx := by
  unfold evolver.synced evolver.copyAllDataToHost
  split <;> rfl

theorem synced_sy (s : evolver) : s.synced.sy = s.sy := by
  unfold evolver.synced evolver.copyAllDataToHost
  split <;> rfl

/-- The device-to-host copy keeps the host buffers at one sample per grid point. -/
theorem synced_buffers (s : evolver) (h0 : 0 ≤ s.sx * s.sy) (hfit : s.sx * s.sy ≤ 2147483647)
    (hbuf : buffersMatchGrid s) :
    ∀ f ∈ s.synced.fields, f.real_array.length = (s.sx * s.sy).toNat := by
  unfold evolver.synced
  split
  · intro f hf
    simp only [evolver.copyAllDataToHost, List.mem_map] at hf
    obtain ⟨g, hg, rfl⟩ := hf
    obtain ⟨h1, h2⟩ := hbuf g hg
    simp only [cudaMemcpy, List.length_append, List.length_take, List.length_drop]
    rw [byteCount_of_fits s.sx s.sy h0 hfit, h1, h2]
    omega
  · intro f hf
    exact (hbuf f hf).1

theorem synced_fields_ne_nil (s : evolver) (h : s.fields ≠ []) : s.synced.fields ≠ [] := by
  unfold evolver.synced
  split
  · simpa [evolver.copyAllDataToHost] using h
  · exact h

theorem writeFields_map (rt : Runtime) (s : evolver) (fs : List field) (F : field → List Event)
    (h : ∀ f ∈ fs, writeField rt s f = Except.ok (F f)) :
    writeFields rt s fs = Except.ok ((fs.map F).flatten) := by
  induction fs with
  | nil => rfl
  | cons f fs ih =>
    simp only [writeFields]
    rw [h f (by simp), ih (fun g hg => h g (by simp [hg]))]
    rfl

theorem writeField_eq_spec (rt : Runtime) (s : evolver) (f : field)
    (hfit : s.sx * s.sy ≤ 2147483647) (hlen : f.real_array.length = (s.sx * s.sy).toNat)
    (hopen : f.outputToFile = true →
      rt.fopen ("data/" ++ f.name ++ ".csv." ++ toString s.currentTimeStep) "w+" = true) :
    writeField rt s.synced f = Except.ok (spec_fileEvents rt s f) := by
  unfold writeField spec_fileEvents
  rw [synced_sx, synced_sy, synced_currentTimeStep]
  cases ho : f.outputToFile with
  | false => rfl
  | true =>
    have hop : rt.fopen (fileName f.name s.currentTimeStep) "w+" = true := hopen ho
    simp only [if_true, hop]
    rw [writeRows_eq_spec rt s.sx s.sy f.real_array hfit hlen]
    rfl

theorem writeOut_fault_of_writeFields (rt : Runtime) (s : evolver) (f0 : field) (v : float2)
    (what : Fault) (hf : s.synced.fields[0]? = some f0) (hv : f0.real_array[0]? = some v)
    (hn : v.x.isNaN = false)
    (hw : writeFields rt s.synced s.synced.fields = Except.error what) :
    s.writeOut rt = Outcome.fault what := by
  rw [writeOut_eq]
  simp only [hf, hv, float_ne_self, hn, Bool.false_eq_true, if_false, hw]

/-- The single field of `hugeGrid`. -/
theorem hugeGrid_fields : hugeGrid.fields = [hugeField] :=
  rfl

/-- The single field of `smallGrid`; it holds one sample per grid point and no NaN. -/
theorem smallGrid_fields : smallGrid.fields = [smallField] :=
  rfl

theorem smallGrid_buffers : buffersMatchGrid smallGrid := by
  intro f hf
  rw [smallGrid_fields, List.mem_singleton] at hf
  subst hf
  exact ⟨rfl, rfl⟩

/-- The field of `hugeGrid` is written to file, holds one sample per grid point and no NaN. -/
theorem hugeGrid_buffers (f : field) (hf : f ∈ hugeGrid.fields) :
    f.outputToFile = true ∧ f.real_array.length = (hugeGrid.sx * hugeGrid.sy).toNat ∧
    f.real_array_d.length = (hugeGrid.sx * hugeGrid.sy).toNat ∧
    ∀ v ∈ f.real_array, v.x.isNaN = false := by
  rw [hugeGrid_fields, List.mem_singleton] at hf
  subst hf
  refine ⟨rfl, ?_, ?_, ?_⟩
  · show (List.replicate _ _).length = _
    rw [List.length_replicate]
    rfl
  · show (List.replicate _ _).length = _
    rw [List.length_replicate]
    rfl
  · intro v hv
    have : v = ⟨⟨0⟩, ⟨0⟩⟩ := List.eq_of_mem_replicate hv
    subst this
    decide

/-- On `hugeGrid` the loops of `writeOut` leave the buffer. -/
theorem writeOut_hugeGrid : hugeGrid.writeOut rtId = Outcome.fault Fault.bufferIndex := by
  have hf : hugeGrid.synced.fields[0]? = some hugeField := rfl
  have h0 : hugeField.real_array[0]? = some ⟨⟨0⟩, ⟨0⟩⟩ := by
    show (List.replicate _ _)[0]? = _
    rw [List.getElem?_replicate]
    decide
  have hs : hugeGrid.synced = hugeGrid := rfl
  have hw : writeFields rtId hugeGrid.synced hugeGrid.synced.fields =
      Except.error Fault.bufferIndex := by
    rw [hs, hugeGrid_fields]
    exact writeFields_cons_error rtId hugeGrid hugeField [] _ (writeField_hugeGrid _ rfl)
  exact writeOut_fault_of_writeFields rtId hugeGrid _ _ _ hf h0 (by decide) hw

/-- C7, as stated, fails: on the `2147483647 x 2` grid, with no NaN anywhere, `writeOut` does not
produce the file of the field `"u"`; at the grid point `(1, 1)` the `int` index `j*sx + i` wraps
to a negative value and the read leaves the buffer. -/
theorem writeOut_hugeGrid_leaves_buffer :
    hugeGrid.sx ≥ 1 ∧ hugeGrid.sy ≥ 1 ∧
    (∀ f ∈ hugeGrid.fields, f.outputToFile = true ∧
      f.real_array.length = (hugeGrid.sx * hugeGrid.sy).toNat ∧
      ∀ v ∈ f.real_array, v.x.isNaN = false) ∧
    hugeGrid.writeOut rtId = Outcome.fault Fault.bufferIndex :=
  ⟨by decide, by decide,
    fun f hf => ⟨(hugeGrid_buffers f hf).1, (hugeGrid_buffers f hf).2.1,
      (hugeGrid_buffers f hf).2.2.2⟩,
    writeOut_hugeGrid⟩

/-- C7, amended. For a grid with `sx, sy >= 1` whose size `sx*sy` fits in an `int`
(`sx*sy <= 2147483647`), buffers of one sample per grid point, at least one field, no NaN abort
and every `fopen` of an output file succeeding (the source does not test its result), `writeOut`
returns having written, for every field with `outputToFile` set and in field order, the file
`data/<name>.csv.<currentTimeStep>`: the header line `x, y, <name>` followed by
exactly `sx*sy` data lines, the line of the grid point `(i, j)` being the one at position
`j*sx + i` (`j` outer, `i` inner) and reading `i, j, value` with the real part of
`real_array[j*sx + i]`; a field with `outputToFile` unset produces no file. -/
theorem writeOut_file_layout (rt : Runtime) (s : evolver)
    (hsx : 1 ≤ s.sx) (hsy : 1 ≤ s.sy) (hfit : s.sx * s.sy ≤ 2147483647)
    (hbuf : buffersMatchGrid s) (hne : s.fields ≠ [])
    (hnan : ∀ (f0 : field) (v : float2), s.synced.fields[0]? = some f0 →
      f0.real_array[0]? = some v → v.x.isNaN = false)
    (hopen : ∀ f ∈ s.synced.fields, f.outputToFile = true →
      rt.fopen ("data/" ++ f.name ++ ".csv." ++ toString s.currentTimeStep) "w+" = true) :
    s.writeOut rt = Outcome.ret () s.synced
      (Event.enter_writeOut s.currentTimeStep ::
        (s.synced.fields.map (spec_fileEvents rt s)).flatten) ∧
    (∀ f ∈ s.synced.fields, f.outputToFile = false → spec_fileEvents rt s f = []) ∧
    (∀ f ∈ s.synced.fields, f.outputToFile = true →
      spec_fileEvents rt s f =
        [Event.fopen ("data/" ++ f.name ++ ".csv." ++ toString s.currentTimeStep) "w+",
         Event.fprintf ("x, y, " ++ f.name ++ "\n")] ++
          spec_dataLines rt s.sx s.sy f.real_array ++ [Event.fclose] ∧
      (spec_dataLines rt s.sx s.sy f.real_array).length = (s.sx * s.sy).toNat ∧
      ∀ i j : Nat, (i : Int) < s.sx → (j : Int) < s.sy →
        ∃ v : float2, f.real_array[j * s.sx.toNat + i]? = some v ∧
          (spec_dataLines rt s.sx s.sy f.real_array)[j * s.sx.toNat + i]? =
            some (Event.fprintf (toString (i : Int) ++ ", " ++ toString (j : Int) ++ ", " ++
              rt.fmt_f v.x ++ "\n"))) := by
  have h0 : 0 ≤ s.sx * s.sy := Int.mul_nonneg (by omega) (by omega)
  have hlen := synced_buffers s h0 hfit hbuf
  have hN : (s.sx * s.sy).toNat = s.sy.toNat * s.sx.toNat := by
    have h1 : ((s.sx.toNat : Nat) : Int) = s.sx := Int.toNat_of_nonneg (by omega)
    have h2 : ((s.sy.toNat : Nat) : Int) = s.sy := Int.toNat_of_nonneg (by omega)
    have : ((s.sy.toNat * s.sx.toNat : Nat) : Int) = s.sx * s.sy := by
      push_cast
      rw [h1, h2, Int.mul_comm]
    omega
  refine ⟨?_, ?_, ?_⟩
  · rw [writeOut_eq]
    cases hfs : s.synced.fields with
    | nil => exact absurd hfs (synced_fields_ne_nil s hne)
    | cons f0 rest =>
      have hf0 : s.synced.fields[0]? = some f0 := by rw [hfs]; simp
      have hl0 : f0.real_array.length = (s.sx * s.sy).toNat :=
        hlen f0 (by rw [hfs]; simp)
      have hpos : 0 < f0.real_array.length := by
        rw [hl0, hN]
        exact Nat.mul_pos (by omega) (by omega)
      have hv : f0.real_array[0]? = some (f0.real_array[0]) := List.getElem?_eq_getElem hpos
      have hn := hnan f0 _ hf0 hv
      have hw : writeFields rt s.synced (f0 :: rest) =
          Except.ok (((f0 :: rest).map (spec_fileEvents rt s)).flatten) := by
        apply writeFields_map
        intro f hf
        exact writeField_eq_spec rt s f hfit (hlen f (by rw [hfs]; exact hf))
          (hopen f (by rw [hfs]; exact hf))
      simp only [List.getElem?_cons_zero, hv, float_ne_self, hn, Bool.false_eq_true, if_false,
        hw, synced_currentTimeStep]
  · intro f _ ho
    simp [spec_fileEvents, ho]
  · intro f hf ho
    refine ⟨by simp [spec_fileEvents, ho], ?_, ?_⟩
    · unfold spec_dataLines
      rw [(grid_flatten _ s.sx.toNat s.sy.toNat).1, hN]
    · intro i j hi hj
      have hin : j * s.sx.toNat + i < f.real_array.length := by
        rw [hlen f hf, hN]
        have hj2 : j + 1 ≤ s.sy.toNat := by omega
        have := Nat.mul_le_mul_right s.sx.toNat hj2
        rw [Nat.succ_mul] at this
        omega
      refine ⟨f.real_array[j * s.sx.toNat + i], List.getElem?_eq_getElem hin, ?_⟩
      unfold spec_dataLines
      rw [(grid_flatten _ s.sx.toNat s.sy.toNat).2 j i (by omega) (by omega)]
      simp [dataLine, sampleAt, List.getElem?_eq_getElem hin]

/-- Witness for C7 (amended): with every `fopen` succeeding, the field `"u"` on a 2 x 2 grid at
step 0 gives a header line and four data lines. -/
theorem writeOut_file_layout_witness :
    smallGrid.writeOut rtId = Outcome.ret () smallGrid.synced
      (Event.enter_writeOut smallGrid.currentTimeStep ::
        (smallGrid.synced.fields.map (spec_fileEvents rtId smallGrid)).flatten) :=
  (writeOut_file_layout rtId smallGrid (by decide) (by decide) (by decide) smallGrid_buffers
    (by rw [smallGrid_fields]; simp)
    (by
      intro f0 v hf hv
      have hf1 : smallGrid.synced.fields[0]? = some smallField := rfl
      rw [hf1] at hf
      have hf2 : f0 = smallField := (Option.some.inj hf).symm
      subst hf2
      have hv1 : smallField.real_array[0]? = some ⟨⟨0⟩, ⟨0⟩⟩ := rfl
      rw [hv1] at hv
      have hv2 : v = ⟨⟨0⟩, ⟨0⟩⟩ := (Option.some.inj hv).symm
      subst hv2
      decide)
    (fun _ _ _ => rfl)).1

/-! ## C10: the unguarded accesses of a step -/

theorem advanceTime_of_writeOut_fault (rt : Runtime) (s : evolver) (what : Fault)
    (hN : s.writeEveryNSteps ≠ 0)
    (hmin : s.currentTimeStep = -2147483648 → s.writeEveryNSteps ≠ -1)
    (hm : Int.tmod s.currentTimeStep s.writeEveryNSteps = 0)
    (hw : s.writeOut rt = Outcome.fault what) : s.advanceTime rt = Outcome.fault what := by
  have hmin2 : ¬ (s.currentTimeStep = -2147483648 ∧ s.writeEveryNSteps = -1) :=
    fun h => hmin h.1 h.2
  unfold evolver.advanceTime
  simp only [hN, if_false, hmin2, hm, if_true, hw]

theorem mem_updateAllFields_isCall (rt : Runtime) (s : evolver) :
    ∀ e ∈ (updateAllFields rt s).2, e.isCall = true := by
  intro e he
  rw [(updateAllFields_events rt s).2] at he
  rcases List.mem_append.1 he with h | h
  all_goals
    obtain ⟨k, _, hor⟩ := mem_batchedCalls.1 h
    rcases hor with rfl | rfl <;> rfl

/-- The events and the counter of one returning call of `advanceTime`: the events `W` of the
optional `writeOut`, the method calls `U`, then the overflow mark of the counter. -/
theorem advanceTime_shape (rt : Runtime) (s s2 : evolver) (v : Int) (out : List Event)
    (h : s.advanceTime rt = Outcome.ret v s2 out) :
    v = 0 ∧ s2.currentTimeStep = wrapInt32 (s.currentTimeStep + 1) ∧
    s2.writeEveryNSteps = s.writeEveryNSteps ∧
    ∃ W U : List Event, out = W ++ U ++ overflowMark s.currentTimeStep ∧
      (∀ e ∈ U, e.isCall = true) ∧
      ((Int.tmod s.currentTimeStep s.writeEveryNSteps = 0 ∧ ∃ files : List Event,
          W = Event.enter_writeOut s.currentTimeStep :: files ∧
          ∀ e ∈ files, e.isFile = true) ∨
        (Int.tmod s.currentTimeStep s.writeEveryNSteps ≠ 0 ∧ W = [])) := by
  obtain ⟨_, hv, s1, out1, hw, hout, hs2⟩ := advanceTime_ret rt s s2 v out h
  have hcfg1 : sameConfig s s1 := by
    rcases hw with ⟨_, hw⟩ | ⟨_, rfl, _⟩
    · obtain ⟨hs, _⟩ := writeOut_ret rt s s1 () out1 hw
      exact hs ▸ synced_sameConfig s
    · exact sameConfig_refl _
  have hcfg := sameConfig_trans hcfg1 (updateAllFields_events rt s1).1
  refine ⟨hv, ?_, ?_, out1, (updateAllFields rt s1).2, ?_, mem_updateAllFields_isCall rt s1, ?_⟩
  · rw [hs2]
    show wrapInt32 ((updateAllFields rt s1).1.currentTimeStep + 1) = _
    rw [hcfg.2.2.1]
  · rw [hs2]
    exact hcfg.2.2.2.1
  · rw [hout, hcfg.2.2.1]
  · rcases hw with ⟨hm, hw⟩ | ⟨hm, _, ho⟩
    · obtain ⟨_, files, ho, _, hfiles⟩ := writeOut_ret rt s s1 () out1 hw
      exact Or.inl ⟨hm, files, ho, hfiles⟩
    · exact Or.inr ⟨hm, ho⟩

/-- With buffers of one sample per grid point on a grid that fits in an `int`, and every `fopen`
succeeding, `writeOut` either exits on a NaN or returns. -/
theorem writeOut_exit_or_ret (rt : Runtime) (s : evolver) (hne : s.fields ≠ [])
    (h1 : 1 ≤ s.sx * s.sy) (hfit : s.sx * s.sy ≤ 2147483647) (hbuf : buffersMatchGrid s)
    (hopen : ∀ f ∈ s.synced.fields, f.outputToFile = true →
      rt.fopen ("data/" ++ f.name ++ ".csv." ++ toString s.currentTimeStep) "w+" = true) :
    (∃ (f0 : field) (v : float2), s.synced.fields[0]? = some f0 ∧ f0.real_array[0]? = some v) ∧
    ((∃ out, s.writeOut rt = Outcome.exit (-1) out) ∨
      (∃ out, s.writeOut rt = Outcome.ret () s.synced out)) := by
  have hlen := synced_buffers s (by omega) hfit hbuf
  cases hfs : s.synced.fields with
  | nil => exact absurd hfs (synced_fields_ne_nil s hne)
  | cons f0 rest =>
    have hf0 : s.synced.fields[0]? = some f0 := by rw [hfs]; simp
    have hl0 : f0.real_array.length = (s.sx * s.sy).toNat := hlen f0 (by rw [hfs]; simp)
    have hpos : 0 < f0.real_array.length := by
      rw [hl0]
      omega
    have hv : f0.real_array[0]? = some (f0.real_array[0]) := List.getElem?_eq_getElem hpos
    refine ⟨⟨f0, _, by simp, hv⟩, ?_⟩
    have hw : writeFields rt s.synced s.synced.fields =
        Except.ok ((s.synced.fields.map (spec_fileEvents rt s)).flatten) := by
      apply writeFields_map
      intro f hf
      exact writeField_eq_spec rt s f hfit (hlen f hf) (hopen f hf)
    rw [writeOut_eq]
    cases hn : (f0.real_array[0]).x.isNaN with
    | true =>
      left
      simp only [hf0, hv, float_ne_self, hn, if_true]
      exact ⟨_, rfl⟩
    | false =>
      right
      simp only [hf0, hv, float_ne_self, hn, Bool.false_eq_true, if_false, hw]
      exact ⟨_, rfl⟩

theorem not_mem_overflow_of_isFile (evs : List Event) (h : ∀ e ∈ evs, e.isFile = true) :
    Event.signed_overflow ∉ evs :=
  fun hm => absurd (h _ hm) (by decide)

theorem not_mem_overflow_of_isCall (evs : List Event) (h : ∀ e ∈ evs, e.isCall = true) :
    Event.signed_overflow ∉ evs :=
  fun hm => absurd (h _ hm) (by decide)

/-- C10, as stated, fails: `hugeGrid` has `writeEveryNSteps != 0`, one registered field,
`sx*sy >= 1` and buffers of `sx*sy` samples, and yet `advanceTime` leaves a buffer: the `int`
index `j*sx + i` wraps at the grid point `(1, 1)`. -/
theorem advanceTime_hugeGrid_leaves_buffer :
    hugeGrid.writeEveryNSteps ≠ 0 ∧ hugeGrid.fields ≠ [] ∧ hugeGrid.sx * hugeGrid.sy ≥ 1 ∧
    buffersMatchGrid hugeGrid ∧
    hugeGrid.advanceTime rtId = Outcome.fault Fault.bufferIndex ∧
    wrapInt32 (wrapInt32 (1 * hugeGrid.sx) + 1) < 0 :=
  ⟨by decide, by rw [hugeGrid_fields]; simp, by decide,
    fun f hf => ⟨(hugeGrid_buffers f hf).2.1, (hugeGrid_buffers f hf).2.2.1⟩,
    advanceTime_of_writeOut_fault rtId hugeGrid _ (by decide) (by decide) (by decide)
      writeOut_hugeGrid,
    by decide⟩

/-- C10, amended. For an evolver with `writeEveryNSteps != 0`, a step counter (an `int`) that is
below `INT_MAX = 2147483647` and is not `INT_MIN` when `writeEveryNSteps == -1`, at least one
registered field, `1 <= sx*sy <= 2147483647` (the grid size fits in an `int`), buffers of one
sample per grid point and, at an output step, every `fopen` succeeding, `advanceTime` reaches no
undefined behaviour: the modulo has a non-zero divisor and does not overflow, `fields[0]` and
`real_array[0]` exist in `writeOut`, every index `j*sx + i` computed when writing a field is the
exact value, non-negative and `< sx*sy`, no `fprintf` is made on a `NULL` file, and
`currentTimeStep += 1` does not overflow.  The preconditions are not checked by the code: with
`writeEveryNSteps == 0` the modulo divides by zero, with `INT_MIN % -1` it overflows, with an
empty field list at an output step `fields[0]` is outside the vector, with a failed `fopen` the
header is printed to a `NULL` file, and at `currentTimeStep == INT_MAX` the increment
overflows. -/
theorem advanceTime_safe_under_preconditions (rt : Runtime) :
    (∀ s : evolver, s.writeEveryNSteps ≠ 0 → s.fields ≠ [] → 1 ≤ s.sx * s.sy →
      s.sx * s.sy ≤ 2147483647 → buffersMatchGrid s →
      -2147483648 ≤ s.currentTimeStep → s.currentTimeStep < 2147483647 →
      (s.currentTimeStep = -2147483648 → s.writeEveryNSteps ≠ -1) →
      (Int.tmod s.currentTimeStep s.writeEveryNSteps = 0 →
        ∀ f ∈ s.synced.fields, f.outputToFile = true →
          rt.fopen ("data/" ++ f.name ++ ".csv." ++ toString s.currentTimeStep) "w+" = true) →
      (∀ what : Fault, s.advanceTime rt ≠ Outcome.fault what) ∧
      (∀ (v : Int) (s2 : evolver) (out : List Event),
        s.advanceTime rt = Outcome.ret v s2 out →
        Event.signed_overflow ∉ out ∧ s2.currentTimeStep = s.currentTimeStep + 1) ∧
      (∃ (f0 : field) (v : float2),
        s.synced.fields[0]? = some f0 ∧ f0.real_array[0]? = some v) ∧
      (∀ i j : Int, 0 ≤ i → i < s.sx → 0 ≤ j → j < s.sy →
        wrapInt32 (wrapInt32 (j * s.sx) + i) = j * s.sx + i ∧
        0 ≤ j * s.sx + i ∧ j * s.sx + i < s.sx * s.sy)) ∧
    (∀ s : evolver, s.writeEveryNSteps = 0 →
      s.advanceTime rt = Outcome.fault Fault.divideByZero) ∧
    (∀ s : evolver, s.currentTimeStep = -2147483648 → s.writeEveryNSteps = -1 →
      s.advanceTime rt = Outcome.fault Fault.divideOverflow) ∧
    (∀ s : evolver, s.writeEveryNSteps ≠ 0 →
      (s.currentTimeStep = -2147483648 → s.writeEveryNSteps ≠ -1) →
      Int.tmod s.currentTimeStep s.writeEveryNSteps = 0 → s.fields = [] →
      s.advanceTime rt = Outcome.fault Fault.vectorIndex) ∧
    (∀ (s : evolver) (f0 : field) (rest : List field) (v : float2),
      s.writeEveryNSteps ≠ 0 →
      (s.currentTimeStep = -2147483648 → s.writeEveryNSteps ≠ -1) →
      Int.tmod s.currentTimeStep s.writeEveryNSteps = 0 →
      s.synced.fields = f0 :: rest → f0.real_array[0]? = some v → v.x.isNaN = false →
      f0.outputToFile = true →
      rt.fopen ("data/" ++ f0.name ++ ".csv." ++ toString s.currentTimeStep) "w+" = false →
      s.advanceTime rt = Outcome.fault Fault.nullFile) ∧
    (∀ (s s2 : evolver) (v : Int) (out : List Event), s.currentTimeStep = 2147483647 →
      s.advanceTime rt = Outcome.ret v s2 out →
      Event.signed_overflow ∈ out ∧ s2.currentTimeStep = -2147483648) := by
  refine ⟨?_, ?_, ?_, ?_, ?_, ?_⟩
  · intro s hN hne h1 hfit hbuf hlo hhi hmin hopen
    have hmin2 : ¬ (s.currentTimeStep = -2147483648 ∧ s.writeEveryNSteps = -1) :=
      fun h => hmin h.1 h.2
    refine ⟨?_, ?_, ?_, fun i j hi0 hi hj0 hj => index_fits s.sx s.sy i j hfit hi0 hi hj0 hj⟩
    · intro what
      unfold evolver.advanceTime
      simp only [hN, if_false, hmin2]
      by_cases hm : Int.tmod s.currentTimeStep s.writeEveryNSteps = 0
      · obtain ⟨_, hw⟩ := writeOut_exit_or_ret rt s hne h1 hfit hbuf (hopen hm)
        simp only [hm, if_true]
        rcases hw with ⟨out, hw⟩ | ⟨out, hw⟩ <;> rw [hw] <;> simp
      · simp only [hm, if_false]
        simp
    · intro v s2 out h
      obtain ⟨_, hstep, _, W, U, hout, hU, hW⟩ := advanceTime_shape rt s s2 v out h
      have hmark : overflowMark s.currentTimeStep = [] := by
        unfold overflowMark
        rw [if_neg (by omega)]
      refine ⟨?_, ?_⟩
      · rw [hout, hmark, List.append_nil]
        intro hmem
        rcases List.mem_append.1 hmem with hW2 | hU2
        · rcases hW with ⟨_, files, rfl, hfiles⟩ | ⟨_, rfl⟩
          · rcases List.mem_cons.1 hW2 with he | hf
            · exact absurd he (by simp)
            · exact not_mem_overflow_of_isFile files hfiles hf
          · simp at hW2
        · exact not_mem_overflow_of_isCall U hU hU2
      · rw [hstep]
        exact wrapInt32_of_fits _ (by omega) (by omega)
    · by_cases hm : Int.tmod s.currentTimeStep s.writeEveryNSteps = 0
      · exact (writeOut_exit_or_ret rt s hne h1 hfit hbuf (hopen hm)).1
      · have hlen := synced_buffers s (by omega) hfit hbuf
        cases hfs : s.synced.fields with
        | nil => exact absurd hfs (synced_fields_ne_nil s hne)
        | cons f0 rest =>
          have hl0 : f0.real_array.length = (s.sx * s.sy).toNat := hlen f0 (by rw [hfs]; simp)
          have hpos : 0 < f0.real_array.length := by
            rw [hl0]
            omega
          exact ⟨f0, _, by simp, List.getElem?_eq_getElem hpos⟩
  · intro s hN
    unfold evolver.advanceTime
    simp only [hN, if_true]
  · intro s hc hN
    unfold evolver.advanceTime
    have hN0 : s.writeEveryNSteps ≠ 0 := by omega
    rw [if_neg hN0, if_pos ⟨hc, hN⟩]
  · intro s hN hmin hm hfs
    apply advanceTime_of_writeOut_fault rt s _ hN hmin hm
    rw [writeOut_eq]
    have : s.synced.fields = [] := by
      unfold evolver.synced
      split
      · simp [evolver.copyAllDataToHost, hfs]
      · exact hfs
    rw [this]
    rfl
  · intro s f0 rest v hN hmin hm hfs hv hn ho hop
    apply advanceTime_of_writeOut_fault rt s _ hN hmin hm
    have hf0 : s.synced.fields[0]? = some f0 := by rw [hfs]; simp
    apply writeOut_fault_of_writeFields rt s f0 v _ hf0 hv hn
    rw [hfs]
    apply writeFields_cons_error
    apply writeField_nullFile rt s.synced f0 ho
    rw [synced_currentTimeStep]
    exact hop
  · intro s s2 v out hc h
    obtain ⟨_, hstep, _, W, U, hout, _, _⟩ := advanceTime_shape rt s s2 v out h
    refine ⟨?_, ?_⟩
    · rw [hout, hc]
      apply List.mem_append_right
      decide
    · rw [hstep, hc]
      decide

/-- Witness for C10 (amended): with every `fopen` succeeding, a step of the 2 x 2 evolver with one
field is free of undefined behaviour; a cadence of zero divides by zero; and when `fopen` fails
the same step prints to a `NULL` file. -/
theorem advanceTime_safe_under_preconditions_witness :
    (∀ what : Fault, smallGrid.advanceTime rtId ≠ Outcome.fault what) ∧
    ({ smallGrid with writeEveryNSteps := 0 } : evolver).advanceTime rtId =
      Outcome.fault Fault.divideByZero ∧
    smallGrid.advanceTime rtNoFile = Outcome.fault Fault.nullFile :=
  ⟨((advanceTime_safe_under_preconditions rtId).1 smallGrid (by decide)
      (by rw [smallGrid_fields]; simp) (by decide) (by decide) smallGrid_buffers (by decide)
      (by decide) (by decide) (fun _ _ _ _ => rfl)).1,
   (advanceTime_safe_under_preconditions rtId).2.1 _ rfl,
   (advanceTime_safe_under_preconditions rtNoFile).2.2.2.2.1 smallGrid smallField []
      ⟨⟨0⟩, ⟨0⟩⟩ (by decide) (by decide) (by decide) rfl rfl (by decide) rfl rfl⟩

/-! ## C6: step counter and output cadence -/

theorem wrapInt32_range (x : Int) : -2147483648 ≤ wrapInt32 x ∧ wrapInt32 x ≤ 2147483647 := by
  unfold wrapInt32
  omega

/-- One returning call of `advanceTime` entered with a non-negative counter below `INT_MAX`. -/
theorem advanceTime_step (rt : Runtime) (s s2 : evolver) (v : Int) (out : List Event)
    (hc0 : 0 ≤ s.currentTimeStep) (hc1 : s.currentTimeStep + 1 ≤ 2147483647)
    (hN : 1 ≤ s.writeEveryNSteps) (h : s.advanceTime rt = Outcome.ret v s2 out) :
    v = 0 ∧ s2.currentTimeStep = s.currentTimeStep + 1 ∧
    s2.writeEveryNSteps = s.writeEveryNSteps ∧
    stepShape s.writeEveryNSteps s.currentTimeStep out := by
  obtain ⟨hv, hstep, hN2, W, U, hout, hU, hW⟩ := advanceTime_shape rt s s2 v out h
  have hmod : Int.tmod s.currentTimeStep s.writeEveryNSteps =
      s.currentTimeStep % s.writeEveryNSteps := Int.tmod_eq_emod hc0 (by omega)
  have hmark : overflowMark s.currentTimeStep = [] := by
    unfold overflowMark
    rw [if_neg (by omega)]
  rw [hmark, List.append_nil] at hout
  refine ⟨hv, ?_, hN2, W, U, hout, hU, ?_⟩
  · rw [hstep]
    exact wrapInt32_of_fits _ (by omega) (by omega)
  · rw [← hmod]
    exact hW

theorem filterMap_enteredStep_of_isFile (evs : List Event) (h : ∀ e ∈ evs, e.isFile = true) :
    evs.filterMap Event.enteredStep = [] := by
  rw [List.filterMap_eq_nil_iff]
  intro e he
  have := h e he
  cases e <;> simp_all [Event.isFile, Event.enteredStep]

theorem filterMap_enteredStep_of_isCall (evs : List Event) (h : ∀ e ∈ evs, e.isCall = true) :
    evs.filterMap Event.enteredStep = [] := by
  rw [List.filterMap_eq_nil_iff]
  intro e he
  have := h e he
  cases e <;> simp_all [Event.isCall, Event.enteredStep]

/-- In one call, `writeOut` is entered once, with the counter of the call, when that counter is
a multiple of the cadence, and not at all otherwise. -/
theorem stepShape_entered (N c : Int) (evs : List Event) (h : stepShape N c evs) :
    evs.filterMap Event.enteredStep = if c % N = 0 then [c] else [] := by
  obtain ⟨W, U, rfl, hU, hW⟩ := h
  rw [List.filterMap_append, filterMap_enteredStep_of_isCall U hU, List.append_nil]
  rcases hW with ⟨hm, files, rfl, hf⟩ | ⟨hm, rfl⟩
  · rw [if_pos hm, List.filterMap_cons]
    simp [Event.enteredStep, filterMap_enteredStep_of_isFile files hf]
  · rw [if_neg hm]
    rfl

/-- The general form of C6 (amended), for a run entered with the counter `c`. -/
theorem runSteps_from (rt : Runtime) (N : Int) (hN : 1 ≤ N) :
    ∀ (n : Nat) (s : evolver) (c : Nat) (calls : List (Int × List Event)) (s2 : evolver)
      (out : List Event),
      s.writeEveryNSteps = N → s.currentTimeStep = (c : Int) →
      ((c + n : Nat) : Int) ≤ 2147483647 →
      runSteps rt n s = Outcome.ret calls s2 out →
      s2.currentTimeStep = ((c + n : Nat) : Int) ∧ calls.length = n ∧
      (∀ k : Nat, k < n → ∃ evs : List Event,
        calls[k]? = some (0, evs) ∧ stepShape N ((c + k : Nat) : Int) evs) ∧
      out.filterMap Event.enteredStep =
        ((List.range n).filter (fun k => ((c + k : Nat) : Int) % N = 0)).map
          (fun k => ((c + k : Nat) : Int)) := by
  intro n
  induction n with
  | zero =>
    intro s c calls s2 out _ hc _ hrun
    simp only [runSteps, Outcome.ret.injEq] at hrun
    obtain ⟨rfl, rfl, rfl⟩ := hrun
    exact ⟨by simpa using hc, rfl, fun k hk => absurd hk (by omega), rfl⟩
  | succ n ih =>
    intro s c calls s2 out hsN hc hfit hrun
    simp only [runSteps] at hrun
    cases ha : s.advanceTime rt with
    | fault what => simp [ha] at hrun
    | exit status o => simp [ha] at hrun
    | ret v s1 out1 =>
      simp only [ha] at hrun
      cases hr : runSteps rt n s1 with
      | fault what => simp [hr] at hrun
      | exit status o => simp [hr] at hrun
      | ret calls1 s3 out2 =>
        simp only [hr, Outcome.ret.injEq] at hrun
        obtain ⟨rfl, rfl, rfl⟩ := hrun
        obtain ⟨hv, hstep, hN1, hshape⟩ :=
          advanceTime_step rt s s1 v out1 (by omega) (by omega) (by omega) ha
        rw [hsN] at hN1 hshape
        rw [hc] at hstep hshape
        subst hv
        obtain ⟨i1, i2, i3, i4⟩ := ih s1 (c + 1) calls1 s3 out2 hN1
          (by rw [hstep]; push_cast; ring) (by push_cast at hfit ⊢; omega) hr
        refine ⟨?_, by simp [i2], ?_, ?_⟩
        · rw [i1]
          push_cast
          ring
        · intro k hk
          cases k with
          | zero => exact ⟨out1, by simp, by simpa using hshape⟩
          | succ j =>
            obtain ⟨evs, e1, e2⟩ := i3 j (by omega)
            refine ⟨evs, by simpa using e1, ?_⟩
            have : ((c + (j + 1) : Nat) : Int) = ((c + 1 + j : Nat) : Int) := by
              push_cast
              ring
            rw [this]
            exact e2
        · rw [List.filterMap_append, stepShape_entered N _ out1 hshape, i4,
            List.range_succ_eq_map, List.filter_cons, List.filter_map]
          have hfun : (fun k => decide (((c + k : Nat) : Int) % N = 0)) ∘ Nat.succ =
              (fun k => decide (((c + 1 + k : Nat) : Int) % N = 0)) := by
            funext k
            have : ((c + Nat.succ k : Nat) : Int) = ((c + 1 + k : Nat) : Int) := by
              push_cast
              ring
            simp only [Function.comp, this]
          have hfun2 : (fun k => ((c + k : Nat) : Int)) ∘ Nat.succ =
              (fun k => ((c + 1 + k : Nat) : Int)) := by
            funext k
            simp only [Function.comp]
            push_cast
            ring
          rw [hfun]
          by_cases hm : (c : Int) % N = 0
          · rw [if_pos hm, if_pos (by simpa using hm), List.map_cons, List.map_map, hfun2]
            rfl
          · rw [if_neg hm, if_neg (by simpa using hm), List.map_map, hfun2]
            rfl

/-- The number of multiples of `N` among `0, ..., n-1` is `ceil(n/N)`. -/
theorem count_multiples (N : Int) (hN : 1 ≤ N) (n : Nat) :
    (((List.range n).filter (fun k => ((k : Nat) : Int) % N = 0)).length : Int) =
      ((n : Int) + N - 1) / N := by
  have hdiv : ∀ (a q r : Int), r + N * q = a → 0 ≤ r → r < N → a / N = q := by
    intro a q r h1 h2 h3
    exact ((Int.ediv_emod_unique (by omega)).2 ⟨h1, h2, h3⟩).1
  induction n with
  | zero =>
    symm
    apply hdiv _ 0 (N - 1)
    · simp
    · omega
    · omega
  | succ n ih =>
    rw [List.range_succ, List.filter_append, List.length_append]
    push_cast
    rw [ih]
    have hq := Int.ediv_add_emod (n : Int) N
    have hr0 := Int.emod_nonneg (n : Int) (show N ≠ 0 by omega)
    have hr1 := Int.emod_lt_of_pos (n : Int) (show 0 < N by omega)
    have hmul : N * ((n : Int) / N + 1) = N * ((n : Int) / N) + N := by ring
    have hnext : ((n : Int) + 1 + N - 1) / N = (n : Int) / N + 1 :=
      hdiv _ _ ((n : Int) % N) (by rw [hmul]; omega) hr0 hr1
    rw [hnext]
    by_cases hm : (n : Int) % N = 0
    · have hcur : ((n : Int) + N - 1) / N = (n : Int) / N :=
        hdiv _ _ (N - 1) (by omega) (by omega) (by omega)
      have hf : List.filter (fun k => decide (((k : Nat) : Int) % N = 0)) [n] = [n] := by
        simp [List.filter, hm]
      rw [hcur, hf]
      rfl
    · have hcur : ((n : Int) + N - 1) / N = (n : Int) / N + 1 :=
        hdiv _ _ ((n : Int) % N - 1) (by rw [hmul]; omega) (by omega) (by omega)
      have hf : List.filter (fun k => decide (((k : Nat) : Int) % N = 0)) [n] = [] := by
        simp [List.filter, hm]
      rw [hcur, hf]
      simp

/-- C6, amended. For a cadence `N >= 1` and `n <= 2147483647` (the step counter is an `int`),
when `n` successive calls of `advanceTime` on an evolver with step counter 0 all return (no NaN
abort, no undefined behaviour), the step counter ends at `n`, every call returns 0, and
`writeOut` is entered exactly in the calls `k < n` with `k` a multiple of `N`, `ceil(n/N)` times
in all; in such a call it is entered first, sees the counter `k`, and all its file operations
come before the field method calls. -/
theorem runSteps_counter_and_cadence (rt : Runtime) (N : Int) (n : Nat) (s s2 : evolver)
    (calls : List (Int × List Event)) (out : List Event)
    (hN : 1 ≤ N) (hn : (n : Int) ≤ 2147483647)
    (hsN : s.writeEveryNSteps = N) (h0 : s.currentTimeStep = 0)
    (hrun : runSteps rt n s = Outcome.ret calls s2 out) :
    s2.currentTimeStep = (n : Int) ∧ calls.length = n ∧
    (∀ k : Nat, k < n → ∃ evs : List Event, calls[k]? = some (0, evs) ∧
      evs.filterMap Event.enteredStep = (if (k : Int) % N = 0 then [(k : Int)] else []) ∧
      ∃ W U : List Event, evs = W ++ U ∧ (∀ e ∈ U, e.isCall = true) ∧
        (((k : Int) % N = 0 ∧ ∃ files : List Event,
            W = Event.enter_writeOut (k : Int) :: files ∧ ∀ e ∈ files, e.isFile = true) ∨
          ((k : Int) % N ≠ 0 ∧ W = []))) ∧
    out.filterMap Event.enteredStep =
      ((List.range n).filter (fun k => ((k : Nat) : Int) % N = 0)).map
        (fun (k : Nat) => (k : Int)) ∧
    (((out.filterMap Event.enteredStep).length : Nat) : Int) = ((n : Int) + N - 1) / N := by
  obtain ⟨r1, r2, r3, r4⟩ := runSteps_from rt N hN n s 0 calls s2 out hsN (by simpa using h0)
    (by simpa using hn) hrun
  simp only [Nat.zero_add] at r1 r3 r4
  refine ⟨r1, r2, ?_, r4, ?_⟩
  · intro k hk
    obtain ⟨evs, e1, e2⟩ := r3 k hk
    exact ⟨evs, e1, stepShape_entered N _ evs e2, e2⟩
  · rw [r4, List.length_map]
    exact count_multiples N hN n

/-! ### The run of `tinyRun` -/

theorem withBuffers_self (f : field) :
    f.withBuffers ⟨f.real_array, f.comp_array, f.real_array_d, f.comp_array_d⟩ = f := by
  cases f
  rfl

theorem modify_self_rtId (fs : List field) (i : Nat) (b : Buffers)
    (hb : ∀ f, fs[i]? = some f →
      b = ⟨f.real_array, f.comp_array, f.real_array_d, f.comp_array_d⟩) :
    fs.modify (fun f => f.withBuffers b) i = fs := by
  apply List.ext_getElem?
  intro k
  rw [List.getElem?_modify]
  by_cases hk : i = k
  · subst hk
    cases hf : fs[i]? with
    | none => rfl
    | some f =>
      rw [hb f hf]
      simp [withBuffers_self]
  · cases fs[k]? <;> simp [hk]

theorem callUpdateTerms_rtId (s : evolver) (i : Nat) : (callUpdateTerms rtId s i).1 = s := by
  unfold callUpdateTerms
  simp only
  rw [modify_self_rtId]
  intro f hf
  simp [rtId, hf]

theorem callSetRHS_rtId (s : evolver) (i : Nat) : (callSetRHS rtId s i).1 = s := by
  unfold callSetRHS
  simp only
  rw [modify_self_rtId]
  intro f hf
  simp [rtId, hf]

theorem forEachField_id (sel : field → Bool) (call : evolver → Nat → evolver × Event)
    (hcall : ∀ s i, (call s i).1 = s) (is : List Nat) (s : evolver) :
    (forEachField sel call is s).1 = s := by
  induction is with
  | nil => rfl
  | cons i is ih =>
    simp only [forEachField]
    split
    · exact ih
    · split
      · simp only [hcall]
        exact ih
      · exact ih

/-- With the runtime `rtId` the four loops leave the evolver as it is. -/
theorem updateAllFields_rtId (s : evolver) : (updateAllFields rtId s).1 = s := by
  unfold updateAllFields
  simp only [forEachField_id _ _ callUpdateTerms_rtId, forEachField_id _ _ callSetRHS_rtId]

theorem tinyRun_step (s : evolver) (h : tinyRunLike s) :
    ∃ (s1 : evolver) (out : List Event), s.advanceTime rtId = Outcome.ret 0 s1 out ∧
      tinyRunLike s1 ∧ s1.currentTimeStep = wrapInt32 (s.currentTimeStep + 1) := by
  obtain ⟨h1, h2, h3, h4⟩ := h
  have hfs : tinyRun.fields =
      [createdField rtId (evolver.ctor rtId false 1 1 ⟨0⟩ ⟨0⟩ ⟨0⟩ 1).1 "u" true] := rfl
  have hra : (createdField rtId (evolver.ctor rtId false 1 1 ⟨0⟩ ⟨0⟩ ⟨0⟩ 1).1 "u"
      true).real_array[0]? = some ⟨⟨0⟩, ⟨0⟩⟩ := rfl
  have hof : (createdField rtId (evolver.ctor rtId false 1 1 ⟨0⟩ ⟨0⟩ ⟨0⟩ 1).1 "u"
      true).outputToFile = false := rfl
  have hsync : s.synced = s := by simp [evolver.synced, h1]
  have hw : s.writeOut rtId = Outcome.ret () s [Event.enter_writeOut s.currentTimeStep] := by
    rw [writeOut_eq, hsync, h3, hfs]
    simp only [List.getElem?_cons_zero, hra]
    rw [if_neg (by decide)]
    simp [writeFields, writeField, hof]
  have hmod : Int.tmod s.currentTimeStep 1 = 0 := Int.tmod_one s.currentTimeStep
  have hstep : s.advanceTime rtId =
      Outcome.ret 0
        { (updateAllFields rtId s).1 with
          currentTime := rtId.add (updateAllFields rtId s).1.currentTime
            (updateAllFields rtId s).1.dt,
          currentTimeStep := wrapInt32 ((updateAllFields rtId s).1.currentTimeStep + 1) }
        ([Event.enter_writeOut s.currentTimeStep] ++ (updateAllFields rtId s).2 ++
          overflowMark (updateAllFields rtId s).1.currentTimeStep) := by
    have hN0 : s.writeEveryNSteps ≠ 0 := by omega
    have hmin : ¬ (s.currentTimeStep = -2147483648 ∧ s.writeEveryNSteps = -1) := by omega
    unfold evolver.advanceTime
    rw [if_neg hN0, if_neg hmin]
    simp only [h2, hmod, if_true, hw]
  rw [updateAllFields_rtId] at hstep
  exact ⟨_, _, hstep, ⟨h1, h2, h3, h4⟩, rfl⟩

theorem tinyRun_runs (n : Nat) :
    ∀ s : evolver, tinyRunLike s →
      ∃ (calls : List (Int × List Event)) (s2 : evolver) (out : List Event),
        runSteps rtId n s = Outcome.ret calls s2 out ∧ tinyRunLike s2 ∧
        (s2.currentTimeStep = s.currentTimeStep ∨
          (-2147483648 ≤ s2.currentTimeStep ∧ s2.currentTimeStep ≤ 2147483647)) := by
  induction n with
  | zero => exact fun s h => ⟨[], s, [], rfl, h, Or.inl rfl⟩
  | succ n ih =>
    intro s h
    obtain ⟨s1, out1, ha, hl, hc⟩ := tinyRun_step s h
    obtain ⟨calls, s2, out2, hr, hl2, hc2⟩ := ih s1 hl
    refine ⟨(0, out1) :: calls, s2, out1 ++ out2, ?_, hl2, Or.inr ?_⟩
    · simp only [runSteps, ha, hr]
    · rcases hc2 with hc2 | hc2
      · rw [hc2, hc]
        exact wrapInt32_range _
      · exact hc2

/-- C6, as stated, fails for `n = 2147483648`: on a just constructed evolver with cadence 1 and
one field all the calls return, but the step counter, an `int`, does not hold `2147483648`
after them. -/
theorem runSteps_counter_overflow :
    tinyRun.currentTimeStep = 0 ∧ tinyRun.writeEveryNSteps = 1 ∧
    ∃ (calls : List (Int × List Event)) (s2 : evolver) (out : List Event),
      runSteps rtId 2147483648 tinyRun = Outcome.ret calls s2 out ∧
      s2.currentTimeStep ≠ 2147483648 := by
  refine ⟨rfl, rfl, ?_⟩
  obtain ⟨calls, s2, out, hr, _, hc⟩ := tinyRun_runs 2147483648 tinyRun ⟨rfl, rfl, rfl, rfl⟩
  refine ⟨calls, s2, out, hr, ?_⟩
  rcases hc with hc | hc
  · rw [hc]
    decide
  · omega

/-- Witness for C6 (amended): three steps of `twoFields` (cadence 1) leave the counter at 3. -/
theorem runSteps_counter_and_cadence_witness :
    ∃ (calls : List (Int × List Event)) (s2 : evolver) (out : List Event),
      runSteps rtId 3 twoFields = Outcome.ret calls s2 out ∧
      s2.currentTimeStep = ((3 : Nat) : Int) ∧ calls.length = 3 :=
  ⟨_, _, _, rfl,
    (runSteps_counter_and_cadence rtId 1 3 twoFields _ _ _ (by decide) (by decide) rfl rfl
      rfl).1,
    (runSteps_counter_and_cadence rtId 1 3 twoFields _ _ _ (by decide) (by decide) rfl rfl
      rfl).2.1⟩

end CuPSS
